import Mathlib

/-!
Verification development for the CaribData `belize-data-resources` pipeline.

The Python scripts `scripts/build_wb_fao.py` and `scripts/fetch_messy.py`
are shallowly embedded below: pure data transformations become Lean
functions, filesystem and HTTP effects become explicit state passing over
environment records, and JSON payloads become an inductive value type.
Wall-clock time is modelled as an integer number of seconds.
-/

namespace CaribData

/-! ## Character-list string helpers

Python string primitives (`str.lower`, `str.strip`, membership tests,
comparisons) are modelled over `List Char` so that every operation reduces
inside the kernel.  Only ASCII case folding is needed by the scripts. -/

def lowerChar (c : Char) : Char :=
  if 'A' ≤ c ∧ c ≤ 'Z' then Char.ofNat (c.toNat + 32) else c

/-- Python `str.lower()` restricted to ASCII letters. -/
def strLower (s : String) : String :=
  ⟨s.data.map lowerChar⟩

def isWsChar (c : Char) : Bool :=
  c.toNat = 32 || c.toNat = 9 || c.toNat = 10 || c.toNat = 13 ||
  c.toNat = 11 || c.toNat = 12

/-- Python `str.strip()`. -/
def strStrip (s : String) : String :=
  ⟨((s.data.dropWhile isWsChar).reverse.dropWhile isWsChar).reverse⟩

/-- `listLeads pat l` holds when `pat` is an initial segment of `l`. -/
def listLeads : List Char → List Char → Bool
  | [], _ => true
  | _ :: _, [] => false
  | p :: ps, c :: cs => p = c && listLeads ps cs

/-- `listHasSub pat l`: `pat` occurs as a contiguous run inside `l`. -/
def listHasSub (pat : List Char) : List Char → Bool
  | [] => listLeads pat []
  | c :: cs => listLeads pat (c :: cs) || listHasSub pat cs

/-- Python `s.startswith(pat)`. -/
def strLeads (pat s : String) : Bool := listLeads pat.data s.data

/-- Python `s.endswith(pat)`. -/
def strEnds (pat s : String) : Bool := listLeads pat.data.reverse s.data.reverse

/-- Python `pat in s` (substring test). -/
def strHasSub (pat s : String) : Bool := listHasSub pat.data s.data

/-- Code-point comparison of character lists, Python `str` `<=` order. -/
def charsLe : List Char → List Char → Bool
  | [], _ => true
  | _ :: _, [] => false
  | a :: as, b :: bs => if a = b then charsLe as bs else a.toNat ≤ b.toNat

def strLeB (a b : String) : Bool := charsLe a.data b.data

/-! ## JSON value model

Payloads moved through `requests`/`json` are modelled as a JSON value
tree; `Json.null` doubles as Python's `None` (which is exactly what
`json.loads("null")` returns). Numbers are restricted to integers, which
covers every payload the claims touch. -/

inductive Json where
  | null
  | bool (b : Bool)
  | num (n : Int)
  | str (s : String)
  | arr (xs : List Json)
  | obj (kvs : List (String × Json))

/-- Python truthiness (`bool(x)`) of a JSON payload. -/
def jsonTruthy : Json → Bool
  | .null => false
  | .bool b => b
  | .num n => n != 0
  | .str s => !s.data.isEmpty
  | .arr xs => !xs.isEmpty
  | .obj kvs => !kvs.isEmpty

def jsonIsNull : Json → Bool
  | .null => true
  | _ => false

/-- Python `dict.get(k)` on a JSON object's key-value list (`none` when the
payload is not an object is handled by callers). -/
def jsonLookup (kvs : List (String × Json)) (k : String) : Option Json :=
  (kvs.find? (fun kv => kv.1 = k)).map (·.2)

/-! ## Cache store (`cache_get` / `cache_set`, build_wb_fao.py)

The cache directory is a map from the (sha1-hashed, hence injective) key
to a file.  A file's content is recorded post-parse: `some j` when the
text on disk is a valid JSON encoding of `j`, `none` when `json.loads`
would fail on it.  `mtime` is seconds since the epoch. -/

structure CacheFile where
  content : Option Json
  mtime : Int

abbrev CacheStore := List (String × CacheFile)

def storeLookup (store : CacheStore) (key : String) : Option CacheFile :=
  (store.find? (fun kv => kv.1 = key)).map (·.2)

/-- `cache_get(cache_dir, key, ttl_hours)` at wall-clock time `now`
(seconds).  Returns `Json.null` for Python `None`: file missing, entry
older than the TTL (when `ttl_hours > 0`), or unparseable content — and
also when the stored payload itself is JSON `null`. -/
def cache_get (store : CacheStore) (now : Int) (key : String) (ttl_hours : Int) : Json :=
  match storeLookup store key with
  | none => Json.null
  | some f =>
    if ttl_hours > 0 ∧ now - f.mtime > ttl_hours * 3600 then Json.null
    else
      match f.content with
      | none => Json.null
      | some j => j

/-- `cache_set(cache_dir, key, value)` at time `now`: (over)writes the
entry file with the JSON serialization of `value`. -/
def cache_set (store : CacheStore) (key : String) (value : Json) (now : Int) : CacheStore :=
  (key, ⟨some value, now⟩) :: store

/-- The three "absent" conditions named by the spec for `cache_get`. -/
def cacheSpecAbsent (store : CacheStore) (now : Int) (key : String) (ttl_hours : Int) : Prop :=
  storeLookup store key = none
  ∨ (∃ f, storeLookup store key = some f ∧ ttl_hours > 0 ∧ now - f.mtime > ttl_hours * 3600)
  ∨ (∃ f, storeLookup store key = some f ∧ f.content = none)

/-- The absent conditions as the code realizes them: additionally, a
stored payload of JSON `null` reads back as Python `None`. -/
def cacheCodeAbsent (store : CacheStore) (now : Int) (key : String) (ttl_hours : Int) : Prop :=
  cacheSpecAbsent store now key ttl_hours
  ∨ (∃ f, storeLookup store key = some f ∧ f.content = some Json.null)

/-! ## FAOSTAT API fetch (`fao_fetch_domain`, build_wb_fao.py) -/

/-- `_normalize_fao_payload`: a dict with a list under `"data"` yields that
list, a bare list yields itself, anything else yields `[]`. -/
def normalizeFaoPayload : Json → List Json
  | .obj kvs =>
    match jsonLookup kvs "data" with
    | some (.arr xs) => xs
    | _ => []
  | .arr xs => xs
  | _ => []

/-- Ordering on `(key, value)` string pairs, Python tuple comparison as
used by `sorted(params.items())`. -/
def pairLeB (a b : String × String) : Bool :=
  if a.1 = b.1 then strLeB a.2 b.2 else strLeB a.1 b.1

/-- `url + "?" + "&".join(f"{k}={v}" for k, v in sorted(params.items()))
if params else url`. -/
def buildKey (url : String) (params : List (String × String)) : String :=
  if params.isEmpty then url
  else
    url ++ "?" ++
      String.intercalate "&" ((params.mergeSort pairLeB).map (fun kv => kv.1 ++ "=" ++ kv.2))

/-- Outcome of the single `http_get` + `r.json()` step inside
`fao_fetch_domain`: the request either raises after retries are
exhausted, or delivers a body that parses to `some j`, or (`none`) a body
`r.json()` rejects. -/
inductive HttpOutcome where
  | raised (msg : String)
  | resp (body : Option Json)

structure FaoFetchResult where
  rows : List Json
  store : CacheStore
  fetched : Bool

/-- `fao_fetch_domain(base, domain, params, cache_dir, ttl, timeout)` at
time `now`, with the network's behaviour for this request given by
`http`.  `fetched` records whether an HTTP request was issued. -/
def fao_fetch_domain (http : HttpOutcome) (store : CacheStore) (now : Int)
    (base domain : String) (params : List (String × String)) (ttl : Int) :
    Except String FaoFetchResult :=
  let key := buildKey (base ++ "/" ++ domain) params
  let cached := cache_get store now key ttl
  if jsonIsNull cached then
    match http with
    | .raised e => .error e
    | .resp body =>
      let c := match body with
        | some j => j
        | none => Json.obj []
      .ok ⟨normalizeFaoPayload c, cache_set store key c now, true⟩
  else
    .ok ⟨normalizeFaoPayload cached, store, false⟩

/-! ## DataFrame model

A pandas `DataFrame` is a column-name list plus one association list per
row.  Reading a missing column from a row yields `Cell.null` (NaN), which
is also how `pd.concat` of frames with different columns behaves. -/

inductive Cell where
  | str (s : String)
  | num (n : Int)
  | null
  deriving DecidableEq

abbrev Row := List (String × Cell)

structure DF where
  cols : List String
  rows : List Row
  deriving DecidableEq

/-- Generic association-list lookup (first binding wins). -/
def alist {α : Type} (l : List (String × α)) (k : String) : Option α :=
  (l.find? (fun kv => kv.1 = k)).map (·.2)

def getCell (r : Row) (c : String) : Cell :=
  (alist r c).getD .null

/-- Well-formed frame: each row carries exactly the frame's columns. -/
def DF.WF (df : DF) : Prop :=
  ∀ r ∈ df.rows, r.map (·.1) = df.cols

/-- `_std_cols`'s per-column rename: case/spacing-insensitive mapping onto
the canonical FAOSTAT schema. -/
def stdName (col : String) : String :=
  let c := strLower (strStrip col)
  if c = "area code (m49)" ∨ c = "m49_code" ∨ c = "area_code" ∨ c = "areacode" then "area_code"
  else if c = "area" then "area"
  else if c = "item code" ∨ c = "item_code" then "item_code"
  else if c = "item" then "item"
  else if c = "element" then "element"
  else if c = "year" then "year"
  else if c = "value" then "value"
  else if c = "unit" then "unit"
  else col

/-- `_std_cols(df)`. -/
def DF.stdCols (df : DF) : DF :=
  ⟨df.cols.map stdName, df.rows.map (fun r => r.map (fun kv => (stdName kv.1, kv.2)))⟩

def isNumericCell : Cell → Bool
  | .str _ => false
  | _ => true

/-- `pd.api.types.is_numeric_dtype(df[c])`: the column holds no strings. -/
def DF.numericCol (df : DF) (c : String) : Bool :=
  df.rows.all (fun r => isNumericCell (getCell r c))

def M49_BY_ISO3 : List (String × Int) :=
  [("BLZ", 84), ("JAM", 388), ("TTO", 780), ("GUY", 328)]

def NAME_BY_ISO3 : List (String × String) :=
  [("BLZ", "Belize"), ("JAM", "Jamaica"), ("TTO", "Trinidad and Tobago"), ("GUY", "Guyana")]

/-- `astype(str)` of one cell (`NaN` stringifies to `"nan"`). -/
def cellToStr : Cell → String
  | .str s => s
  | .num n => toString n
  | .null => "nan"

/-- `_filter_country_elements(df, iso3, elements)`. -/
def filterCountryElements (df : DF) (iso3 : String) (elements : List String) : DF :=
  let m49 := alist M49_BY_ISO3 iso3
  let name := (alist NAME_BY_ISO3 iso3).getD iso3
  let df1 :=
    if df.cols.contains "area_code" ∧ df.numericCol "area_code" then
      { df with rows := df.rows.filter (fun r =>
          match m49, getCell r "area_code" with
          | some v, .num x => x = v
          | _, _ => false) }
    else if df.cols.contains "area" then
      { df with rows := df.rows.filter (fun r =>
          strLower (strStrip (cellToStr (getCell r "area"))) = strLower name) }
    else df
  if (¬ elements.isEmpty) ∧ df1.cols.contains "element" then
    { df1 with rows := df1.rows.filter (fun r => elements.contains (cellToStr (getCell r "element"))) }
  else df1

def rowSet (r : Row) (k : String) (v : Cell) : Row :=
  r.map (fun kv => if kv.1 = k then (k, v) else kv)

/-- `df[k] = v` for a constant `v`: replace the column when present, else
append it on the right. -/
def DF.setCol (df : DF) (k : String) (v : Cell) : DF :=
  if df.cols.contains k then ⟨df.cols, df.rows.map (fun r => rowSet r k v)⟩
  else ⟨df.cols ++ [k], df.rows.map (fun r => r ++ [(k, v)])⟩

/-- `df[keep]`: project onto the listed columns, in that order. -/
def DF.select (df : DF) (keep : List String) : DF :=
  ⟨keep, df.rows.map (fun r => keep.map (fun c => (c, getCell r c)))⟩

def unionCols (acc cs : List String) : List String :=
  acc ++ cs.filter (fun c => ¬ acc.contains c)

/-- `pd.concat(dfs, ignore_index=True)`: union of columns in order of
first appearance; rows stacked, absent cells reading as NaN. -/
def DF.concatDF (dfs : List DF) : DF :=
  ⟨dfs.foldl (fun acc df => unionCols acc df.cols) [],
   dfs.foldl (fun acc df => acc ++ df.rows) []⟩

/-- `pd.DataFrame(records)` for a list of JSON dicts: columns are the
union of the keys in order of first appearance. -/
def dfOfRecords (rows : List Row) : DF :=
  ⟨rows.foldl (fun acc r => unionCols acc (r.map (·.1))) [], rows⟩

/-! ### Row ordering used by `sort_values` -/

def Cell.rank : Cell → Nat
  | .num _ => 0
  | .str _ => 1
  | .null => 2

/-- Total preorder on cells: numbers, then strings, then NaN (pandas puts
NaN last). -/
def cellLe (a b : Cell) : Bool :=
  match a, b with
  | .num x, .num y => x ≤ y
  | .str x, .str y => strLeB x y
  | _, _ => a.rank ≤ b.rank

/-- Lexicographic order on sort keys. -/
def keyLe : List Cell → List Cell → Bool
  | [], _ => true
  | _ :: _, [] => false
  | a :: as, b :: bs => if a = b then keyLe as bs else cellLe a b

def rowKey (keys : List String) (r : Row) : List Cell :=
  keys.map (getCell r)

/-- Insert into a sorted list (used to realize `sort_values`, whose
algorithm pandas leaves unspecified, as a structural recursion). -/
def insertSorted {α : Type} (le : α → α → Bool) (a : α) : List α → List α
  | [] => [a]
  | b :: bs => if le a b then a :: b :: bs else b :: insertSorted le a bs

def insSort {α : Type} (le : α → α → Bool) : List α → List α
  | [] => []
  | a :: as => insertSorted le a (insSort le as)

/-- `df.sort_values(by=keys)`. -/
def DF.sortBy (df : DF) (keys : List String) : DF :=
  ⟨df.cols, insSort (fun r1 r2 => keyLe (rowKey keys r1) (rowKey keys r2)) df.rows⟩

/-! ## `build_faostat_fbs` (build_wb_fao.py)

The network and the bulk-ZIP pipeline (`_download_with_cache`,
`_read_bulk_zip_to_df`) are abstracted into an environment: per
country×domain the API either raises or returns a record list, and per
mirror URL the download is unreachable (including empty bytes), raises
while the archive is read, or yields the parsed CSV as a frame (empty
when the archive holds no CSV). -/

structure FaoCfg where
  countries : List String
  domains : List String
  elements : List String
  bulkUrls : List String

inductive DlResult where
  | unreachable
  | badZip (msg : String)
  | table (df : DF)

structure FaoEnv where
  apiFetch : String → String → Except String (List Row)
  download : String → DlResult

inductive FaoErr where
  | apiFetch (iso3 dom msg : String)
  | bulkDownload (url msg : String)
  | bulkAllFailed
  deriving DecidableEq

/-- The output directory, as a map from ISO3 code to the content of
`{iso3}_fbs.csv` (newest write first). -/
abbrev Files := List (String × DF)

def setFile (fs : Files) (iso3 : String) (df : DF) : Files := (iso3, df) :: fs

def getFile (fs : Files) (iso3 : String) : Option DF := alist fs iso3

def hasFile (fs : Files) (iso3 : String) : Bool := (getFile fs iso3).isSome

/-- Build state: the directory plus ghost logs of the `to_csv` calls made
by each phase, and the in-memory error list. -/
structure FaoOut where
  files : Files
  apiWrites : List (String × DF)
  bulkWrites : List (String × DF)
  errors : List FaoErr

/-- Columns kept in an output file. -/
def keepSet : List String :=
  ["area_code", "area", "item_code", "item", "element", "year", "value", "unit",
   "_domain", "_source"]

/-- One step of the per-domain API loop for one country: accumulates the
`combined` frame list and the error list. -/
def apiDomainStep (env : FaoEnv) (iso3 : String) (elements : List String)
    (acc : List DF × List FaoErr) (dom : String) : List DF × List FaoErr :=
  match env.apiFetch iso3 dom with
  | .error e => (acc.1, acc.2 ++ [.apiFetch iso3 dom e])
  | .ok rows =>
    if rows.isEmpty then acc
    else
      let df := (dfOfRecords rows).stdCols
      let df := filterCountryElements df iso3 elements
      if df.rows.isEmpty then acc
      else (acc.1 ++ [(df.setCol "_source" (.str "api")).setCol "_domain" (.str dom)], acc.2)

/-- The frame the API path writes for one country out of its non-empty
per-domain frame list: concatenation, column projection, then the sort. -/
def apiOut (combined : List DF) : DF :=
  let out0 := DF.concatDF combined
  let keep := out0.cols.filter (fun c => keepSet.contains c)
  let out1 := if keep.isEmpty then out0 else out0.select keep
  let sortCols := ["_domain", "item", "element", "year"].filter (fun c => out1.cols.contains c)
  if sortCols.isEmpty then out1 else out1.sortBy sortCols

/-- The API attempt for one country: the frame to write (if any) and the
errors recorded along the way. -/
def apiCountry (cfg : FaoCfg) (env : FaoEnv) (iso3 : String) : Option DF × List FaoErr :=
  let step := cfg.domains.foldl (apiDomainStep env iso3 cfg.elements) ([], [])
  if step.1.isEmpty then (none, step.2)
  else (some (apiOut step.1), step.2)

/-- Observer: the `fao_api_fetch` error records one country contributes
over the domain list. -/
def apiErrsFor (env : FaoEnv) (iso3 : String) (doms : List String) : List FaoErr :=
  doms.filterMap (fun dom =>
    match env.apiFetch iso3 dom with
    | .error e => some (.apiFetch iso3 dom e)
    | .ok _ => none)

def apiCountryStep (cfg : FaoCfg) (env : FaoEnv) (st : FaoOut) (iso3 : String) : FaoOut :=
  match (apiCountry cfg env iso3).1 with
  | some df =>
    { st with
      files := setFile st.files iso3 df
      apiWrites := st.apiWrites ++ [(iso3, df)]
      errors := st.errors ++ (apiCountry cfg env iso3).2 }
  | none => { st with errors := st.errors ++ (apiCountry cfg env iso3).2 }

/-- "Try API first" over all configured countries, starting from the
files already on disk. -/
def apiPhase (cfg : FaoCfg) (env : FaoEnv) (init : Files) : FaoOut :=
  cfg.countries.foldl (apiCountryStep cfg env) ⟨init, [], [], []⟩

/-- The mirror loop: first URL that is reachable and yields a non-empty
table wins; archive-read failures are recorded, unreachable mirrors and
empty tables are skipped silently. -/
def selectBulk (env : FaoEnv) : List String → Option (String × DF) × List FaoErr
  | [] => (none, [])
  | url :: rest =>
    match env.download url with
    | .unreachable => selectBulk env rest
    | .badZip e =>
      let r := selectBulk env rest
      (r.1, .bulkDownload url e :: r.2)
    | .table df =>
      if df.rows.isEmpty then selectBulk env rest
      else (some (url, df.stdCols), [])

/-- The frame the bulk path writes for one country: provenance columns,
column projection, then the sort. -/
def bulkOut (elements : List String) (bulkDf : DF) (iso3 : String) : DF :=
  let part := filterCountryElements bulkDf iso3 elements
  let part := (part.setCol "_source" (.str "bulk")).setCol "_domain" (.str "FBS_BULK")
  let keep := part.cols.filter (fun c => keepSet.contains c)
  let part := part.select keep
  let sortCols := ["item", "element", "year"].filter (fun c => part.cols.contains c)
  if sortCols.isEmpty then part else part.sortBy sortCols

/-- Write the bulk extract for one country (skipping empty extracts). -/
def bulkCountryStep (cfg : FaoCfg) (bulkDf : DF) (st : FaoOut) (iso3 : String) : FaoOut :=
  if (filterCountryElements bulkDf iso3 cfg.elements).rows.isEmpty then st
  else
    { st with
      files := setFile st.files iso3 (bulkOut cfg.elements bulkDf iso3)
      bulkWrites := st.bulkWrites ++ [(iso3, bulkOut cfg.elements bulkDf iso3)] }

/-- The bulk-mirror fallback, attempted for the countries whose output
file does not exist when it starts. -/
def bulkPhase (cfg : FaoCfg) (env : FaoEnv) (st : FaoOut) : FaoOut :=
  let needBulk := cfg.countries.filter (fun iso3 => ¬ hasFile st.files iso3)
  if needBulk.isEmpty then st
  else
    match selectBulk env cfg.bulkUrls with
    | (none, es) => { st with errors := st.errors ++ es ++ [.bulkAllFailed] }
    | (some (_, bulkDf), es) =>
      needBulk.foldl (bulkCountryStep cfg bulkDf) { st with errors := st.errors ++ es }

/-- `build_faostat_fbs`: API attempt, then bulk fallback. -/
def build_faostat_fbs (cfg : FaoCfg) (env : FaoEnv) (init : Files) : FaoOut :=
  bulkPhase cfg env (apiPhase cfg env init)

/-- A mirror URL that is reachable and yields a non-empty table. -/
def mirrorGood (env : FaoEnv) (u : String) : Prop :=
  ∃ t, env.download u = .table t ∧ t.rows ≠ []

/-- The sort key named by the spec, restricted to the columns present. -/
def sortKeyCols (df : DF) : List String :=
  ["_domain", "item", "element", "year"].filter (fun c => df.cols.contains c)

/-- Rows are non-decreasing in the lexicographic order on the spec's sort
key (restricted to the columns present). -/
def DF.sortedByKey (df : DF) : Prop :=
  df.rows.Chain' (fun r1 r2 => keyLe (rowKey (sortKeyCols df) r1) (rowKey (sortKeyCols df) r2))

/-- A well-formed bulk table used by the FAOSTAT witnesses. -/
def faoTblEx : DF :=
  ⟨["area_code", "item", "element", "year", "value"],
   [[("area_code", .num 84), ("item", .str "Wheat"), ("element", .str "Food"),
     ("year", .num 2020), ("value", .num 1)],
    [("area_code", .num 84), ("item", .str "Apples"), ("element", .str "Food"),
     ("year", .num 2019), ("value", .num 2)],
    [("area_code", .num 76), ("item", .str "Rice"), ("element", .str "Food"),
     ("year", .num 2020), ("value", .num 3)]]⟩

/-- One country, one domain, one mirror. -/
def faoCfgEx : FaoCfg := ⟨["BLZ"], ["FBS/FBS"], [], ["u1"]⟩

/-- API always raises; the single mirror serves `faoTblEx`. -/
def faoEnvEx : FaoEnv :=
  ⟨fun _ _ => .error "down",
   fun u => if u = "u1" then .table faoTblEx else .unreachable⟩

/-! ## `build_world_bank` (build_wb_fao.py)

The two fetchers (`wb_fetch_indicator_meta`, `wb_fetch_series`) are
abstracted into an environment delivering, per indicator (× country), the
parsed JSON payload a call would produce, or the exception it would
raise. -/

structure WBMeta where
  name : String
  unit : String
  group : String

structure WBCfg where
  indicators : List (String × WBMeta)
  countries : List String

structure WBEnv where
  metaFetch : String → Except String Json
  seriesFetch : String → String → Except String Json

inductive WBErr where
  | meta (indicator msg : String)
  | data (indicator country msg : String)
  deriving DecidableEq

/-- One tidy CSV row of a `{indicator}.csv` output. -/
structure WBRowOut where
  country : Json
  iso2c : String
  year : Json
  indicator : String
  value : Json
  unit : String

/-- `data[1]` (total: the guards in the code ensure the index exists
whenever the value is used). -/
def jsonSecond (xs : List Json) : Json :=
  xs.getD 1 Json.null

/-- `isinstance(data, list) and len(data) > 1 and data[1]`. -/
def wbShapeOk (data : Json) : Bool :=
  match data with
  | .arr xs => decide (xs.length > 1) && jsonTruthy (jsonSecond xs)
  | _ => false

/-- Python `x or {}`. -/
def orEmptyObj (j : Json) : Json :=
  if jsonTruthy j then j else Json.obj []

/-- Building one tidy dict from one API row `r`: raises (AttributeError)
when `r`, or a truthy `r["country"]`, is not a dict. -/
def tidyRow (code c unit : String) (r : Json) : Except String WBRowOut :=
  match r with
  | .obj kvs =>
    match orEmptyObj ((jsonLookup kvs "country").getD Json.null) with
    | .obj ckvs =>
      .ok ⟨(jsonLookup ckvs "value").getD Json.null, c,
           (jsonLookup kvs "date").getD Json.null, code,
           (jsonLookup kvs "value").getD Json.null, unit⟩
    | _ => .error "AttributeError"
  | _ => .error "AttributeError"

/-- The year cell used by `sort_values(by=["year"])`; payloads that are
not scalars sort as NaN. -/
def wbYearCell : Json → Cell
  | .num n => .num n
  | .str s => .str s
  | _ => .null

def sortByYear (rows : List WBRowOut) : List WBRowOut :=
  insSort (fun a b => cellLe (wbYearCell a.year) (wbYearCell b.year)) rows

/-- The `for r in rows:` loop building `tidy`: stops with the exception
raised by the first bad row. -/
def tidyAll (code c unit : String) : List Json → Except String (List WBRowOut)
  | [] => .ok []
  | r :: rs =>
    match tidyRow code c unit r with
    | .error e => .error e
    | .ok x =>
      match tidyAll code c unit rs with
      | .error e => .error e
      | .ok xs => .ok (x :: xs)

/-- The body of the inner `try:` for one indicator × country: `.ok none`
is "no data, continue", `.ok (some rows)` is a written CSV, `.error` is a
caught exception that becomes a `wb_data` error record. -/
def processSeries (env : WBEnv) (code : String) (meta : WBMeta) (c : String) :
    Except String (Option (List WBRowOut)) :=
  match env.seriesFetch code c with
  | .error e => .error e
  | .ok data =>
    if wbShapeOk data then
      match data with
      | .arr xs =>
        match jsonSecond xs with
        | .arr rows =>
          match tidyAll code c meta.unit rows with
          | .error e => .error e
          | .ok tidy => if tidy.isEmpty then .ok none else .ok (some (sortByYear tidy))
        | _ => .error "TypeError"
      | _ => .ok none
    else .ok none

/-- Name/sourceNote extraction from the indicator-metadata payload; only
its raising behaviour matters to the claims (the extracted strings feed
`_dictionary.csv`). -/
def wbMetaExtract (md : Json) : Except String Unit :=
  match md with
  | .arr xs =>
    if decide (xs.length > 1) && jsonTruthy (jsonSecond xs) then
      match jsonSecond xs with
      | .arr ys =>
        match ys.getD 0 Json.null with
        | .obj _ => .ok ()
        | _ => .error "AttributeError"
      | _ => .error "TypeError"
    else .ok ()
  | _ => .ok ()

structure WBOut where
  files : List ((String × String) × List WBRowOut)
  errors : List WBErr

def wbSeriesStep (env : WBEnv) (code : String) (meta : WBMeta) (st : WBOut) (c : String) :
    WBOut :=
  match processSeries env code meta c with
  | .error e => { st with errors := st.errors ++ [.data code c e] }
  | .ok none => st
  | .ok (some rows) => { st with files := st.files ++ [((code, c), rows)] }

def wbIndicatorStep (env : WBEnv) (countries : List String) (st : WBOut)
    (entry : String × WBMeta) : WBOut :=
  let st1 :=
    match env.metaFetch entry.1 with
    | .error e => { st with errors := st.errors ++ [.meta entry.1 e] }
    | .ok md =>
      match wbMetaExtract md with
      | .error e => { st with errors := st.errors ++ [.meta entry.1 e] }
      | .ok _ => st
  countries.foldl (wbSeriesStep env entry.1 entry.2) st1

/-- `build_world_bank`: per-indicator metadata fetch plus per-country
series fetch, collecting written files and caught errors. -/
def build_world_bank (cfg : WBCfg) (env : WBEnv) : WBOut :=
  cfg.indicators.foldl (wbIndicatorStep env cfg.countries) ⟨[], []⟩

/-- `_errors.json` is written exactly when the error list is non-empty. -/
def wbErrorsFileWritten (o : WBOut) : Bool :=
  !o.errors.isEmpty

/-- Observer: the `wb_data` error records one indicator contributes over
a country list. -/
def seriesErrsFor (env : WBEnv) (code : String) (meta : WBMeta) (cs : List String) :
    List WBErr :=
  cs.filterMap (fun c =>
    match processSeries env code meta c with
    | .error e => some (.data code c e)
    | _ => none)

/-- Observer: the files one indicator contributes over a country list. -/
def seriesFilesFor (env : WBEnv) (code : String) (meta : WBMeta) (cs : List String) :
    List ((String × String) × List WBRowOut) :=
  cs.filterMap (fun c =>
    match processSeries env code meta c with
    | .ok (some rows) => some ((code, c), rows)
    | _ => none)

/-- Observer: the `wb_meta` error records one indicator contributes. -/
def metaErrsFor (env : WBEnv) (code : String) : List WBErr :=
  match env.metaFetch code with
  | .error e => [.meta code e]
  | .ok md =>
    match wbMetaExtract md with
    | .error e => [.meta code e]
    | .ok _ => []

def indicatorErrs (env : WBEnv) (countries : List String) (entry : String × WBMeta) :
    List WBErr :=
  metaErrsFor env entry.1 ++ seriesErrsFor env entry.1 entry.2 countries

/-- The configuration of the spec's World Bank example scenario. -/
def wbCfgEx : WBCfg :=
  ⟨[("SP.POP.TOTL", ⟨"", "people", ""⟩)], ["BZ"]⟩

/-- The environment of the spec's example scenario: the series response
is `[{meta}, [{"date": "2020", "value": 400000,
"country": {"value": "Belize"}}]]`. -/
def wbEnvEx : WBEnv :=
  ⟨fun _ => .ok (Json.obj []),
   fun _ _ => .ok (Json.arr [Json.obj [("page", Json.num 1)],
     Json.arr [Json.obj [("date", Json.str "2020"), ("value", Json.num 400000),
       ("country", Json.obj [("value", Json.str "Belize")])]]])⟩

/-- The single tidy row of the example scenario. -/
def wbRowEx : WBRowOut :=
  ⟨Json.str "Belize", "BZ", Json.str "2020", "SP.POP.TOTL", Json.num 400000, "people"⟩

/-- Metadata entry used by the fail-soft witness below. -/
def wbMetaZero : WBMeta := ⟨"", "u", ""⟩

/-- A well-formed non-empty series response used by the fail-soft
witness. -/
def wbGoodResp : Json :=
  Json.arr [Json.obj [],
    Json.arr [Json.obj [("date", Json.str "2020"), ("value", Json.num 1),
      ("country", Json.obj [("value", Json.str "X")])]]]

/-- Environment in which exactly the indicator `"C"` raises. -/
def wbEnvFailC : WBEnv :=
  ⟨fun _ => .ok (Json.obj []),
   fun code _ => if code = "C" then .error "boom" else .ok wbGoodResp⟩

/-! ## `fetch_messy.py` -/

/-- `is_file_url`: `re.search(r"\.(xlsx|xls|csv)(\?|$)", u, re.I)`. -/
def is_file_url (u : String) : Bool :=
  let l := strLower u
  strHasSub ".xlsx?" l || strEnds ".xlsx" l ||
  strHasSub ".xls?" l || strEnds ".xls" l ||
  strHasSub ".csv?" l || strEnds ".csv" l

/-- The href test inside `discover_xlsx_link`:
`re.search(r"\.xlsx(\?|$)", href, re.I)` — `.xlsx` only. -/
def xlsxLink (href : String) : Bool :=
  let l := strLower href
  strHasSub ".xlsx?" l || strEnds ".xlsx" l

structure MessyItem where
  slug : String
  url : String

/-- `page u` is the list of anchor hrefs on the fetched page (in document
order) or the exception the fetch raises; `fetchFile u` the download. -/
structure MessyEnv where
  page : String → Except String (List String)
  fetchFile : String → Except String Nat

/-- `discover_xlsx_link(page_url)`: first `.xlsx` href, absolutized with
`urljoin` when it does not start with `http`; `None` when the fetch
raises or no link matches. -/
def discover_xlsx_link (urljoin : String → String → String) (env : MessyEnv)
    (page_url : String) : Option String :=
  match env.page page_url with
  | .error _ => none
  | .ok hrefs =>
    (hrefs.find? xlsxLink).map (fun href =>
      if strLeads "http" (strLower href) then href else urljoin page_url href)

structure MessyOut where
  manifest : List (String × String × String)
  errors : List (String × String × String)

/-- The per-item loop body of `fetch_messy.main`: resolve a download URL,
download, record a manifest entry `(slug, original_url, resolved_url)`;
any caught exception becomes an error record `(slug, url, message)`. -/
def processItem (urljoin : String → String → String) (env : MessyEnv)
    (st : MessyOut) (it : MessyItem) : MessyOut :=
  if is_file_url it.url then
    match env.fetchFile it.url with
    | .error e => { st with errors := st.errors ++ [(it.slug, it.url, e)] }
    | .ok _ => { st with manifest := st.manifest ++ [(it.slug, it.url, it.url)] }
  else
    match discover_xlsx_link urljoin env it.url with
    | none =>
      { st with errors := st.errors ++ [(it.slug, it.url, "No .xlsx link discovered on page")] }
    | some link =>
      match env.fetchFile link with
      | .error e => { st with errors := st.errors ++ [(it.slug, it.url, e)] }
      | .ok _ => { st with manifest := st.manifest ++ [(it.slug, it.url, link)] }

def fetch_messy_main (urljoin : String → String → String) (env : MessyEnv)
    (items : List MessyItem) : MessyOut :=
  items.foldl (processItem urljoin env) ⟨[], []⟩

/-! ## Excel header-row heuristic (`analyze_excel_bytes`)

A worksheet is its rows of cell values (`Json.null` for openpyxl's
`None`).  The float test `len(str_like) / max(1, len(non_empty)) >= 0.6`
is equivalent to the exact rational test `5 * str_like >= 3 * non_empty`:
the double nearest 0.6 lies below 3/5 by ~2.2e-17, while a quotient of
cell counts differs from 3/5 by at least 1/(5·non_empty), far above one
rounding ulp. -/

abbrev XRow := List Json

/-- `v not in (None, "")`. -/
def xNonEmpty (v : Json) : Bool :=
  !(jsonIsNull v) &&
  !(match v with
    | .str s => s.data.isEmpty
    | _ => false)

def xIsStr : Json → Bool
  | .str _ => true
  | _ => false

/-- The loop condition `len(non_empty) and
len(str_like) / max(1, len(non_empty)) >= 0.6`. -/
def rowHeaderish (row : XRow) : Bool :=
  let ne := (row.filter xNonEmpty).length
  let sl := (row.filter (fun v => xNonEmpty v && xIsStr v)).length
  decide (ne ≠ 0) && decide (5 * sl ≥ 3 * max 1 ne)

def firstHeaderIdx (p : XRow → Bool) : Nat → List XRow → Option Nat
  | _, [] => none
  | i, r :: rs => if p r then some i else firstHeaderIdx p (i + 1) rs

/-- The per-sheet `header_row_guess` value: 1-based index of the first
qualifying row among the first 10 (`iter_rows(min_row=1,
max_row=min(10, ws.max_row))`, `guess = row[0].row`). -/
def header_row_guess (sheet : List XRow) : Option Nat :=
  firstHeaderIdx rowHeaderish 1 (sheet.take 10)

/-- The claim's condition, read literally over exact rationals: at least
60% of the row's non-empty cells are strings (`ℚ` division by a zero
denominator yields `0`, so an all-empty row does not qualify). -/
def specHeaderish (row : XRow) : Bool :=
  decide ((((row.filter (fun v => xNonEmpty v && xIsStr v)).length : ℚ) /
    ((row.filter xNonEmpty).length : ℚ)) ≥ 3 / 5)

/-- `header_row_guess` as the claim words it. -/
def specHeaderRow (sheet : List XRow) : Option Nat :=
  firstHeaderIdx specHeaderish 1 (sheet.take 10)

/-! ## Order lemmas for the sort keys -/

theorem charsLe_total (l₁ l₂ : List Char) : charsLe l₁ l₂ || charsLe l₂ l₁ := by
  induction l₁ generalizing l₂ with
  | nil => simp [charsLe]
  | cons a as ih =>
    cases l₂ with
    | nil => simp [charsLe]
    | cons b bs =>
      by_cases hab : a = b
      · subst hab
        simpa [charsLe] using ih bs
      · have hba : b ≠ a := fun h => hab h.symm
        simp only [charsLe, if_neg hab, if_neg hba]
        have := Nat.le_total a.toNat b.toNat
        rcases this with h | h <;> simp [h]

theorem char_toNat_inj {a b : Char} (h : a.toNat = b.toNat) : a = b := by
  apply Char.ext
  exact UInt32.ext h

theorem charsLe_antisymm {l₁ l₂ : List Char} (h₁ : charsLe l₁ l₂) (h₂ : charsLe l₂ l₁) :
    l₁ = l₂ := by
  induction l₁ generalizing l₂ with
  | nil =>
    cases l₂ with
    | nil => rfl
    | cons b bs => simp [charsLe] at h₂
  | cons a as ih =>
    cases l₂ with
    | nil => simp [charsLe] at h₁
    | cons b bs =>
      by_cases hab : a = b
      · subst hab
        simp only [charsLe, if_pos rfl] at h₁ h₂
        rw [ih h₁ h₂]
      · have hba : b ≠ a := fun h => hab h.symm
        simp only [charsLe, if_neg hab, if_neg hba, decide_eq_true_eq] at h₁ h₂
        exact absurd (char_toNat_inj (Nat.le_antisymm h₁ h₂)) hab

theorem charsLe_trans {l₁ l₂ l₃ : List Char} (h₁ : charsLe l₁ l₂) (h₂ : charsLe l₂ l₃) :
    charsLe l₁ l₃ := by
  induction l₁ generalizing l₂ l₃ with
  | nil => simp [charsLe]
  | cons a as ih =>
    cases l₂ with
    | nil => simp [charsLe] at h₁
    | cons b bs =>
      cases l₃ with
      | nil => simp [charsLe] at h₂
      | cons c cs =>
        by_cases hab : a = b <;> by_cases hbc : b = c
        · subst hab; subst hbc
          simp only [charsLe, if_pos rfl] at h₁ h₂ ⊢
          exact ih h₁ h₂
        · subst hab
          simp only [charsLe, if_pos rfl] at h₁
          simpa [charsLe, hbc] using h₂
        · subst hbc
          simpa [charsLe, hab] using h₁
        · simp only [charsLe, if_neg hab, if_neg hbc, decide_eq_true_eq] at h₁ h₂
          by_cases hac : a = c
          · subst hac
            exact absurd (char_toNat_inj (Nat.le_antisymm h₁ h₂)) hab
          · simp only [charsLe, if_neg hac, decide_eq_true_eq]
            exact Nat.le_trans h₁ h₂

theorem strLeB_total (s₁ s₂ : String) : strLeB s₁ s₂ || strLeB s₂ s₁ :=
  charsLe_total s₁.data s₂.data

theorem strLeB_antisymm {s₁ s₂ : String} (h₁ : strLeB s₁ s₂) (h₂ : strLeB s₂ s₁) :
    s₁ = s₂ := by
  cases s₁; cases s₂
  exact congrArg String.mk (charsLe_antisymm h₁ h₂)

theorem strLeB_trans {s₁ s₂ s₃ : String} (h₁ : strLeB s₁ s₂) (h₂ : strLeB s₂ s₃) :
    strLeB s₁ s₃ :=
  charsLe_trans h₁ h₂

theorem cellLe_total (a b : Cell) : cellLe a b || cellLe b a := by
  cases a <;> cases b <;> simp [cellLe, Cell.rank] <;>
    first
    | exact Int.le_total _ _
    | simpa using strLeB_total _ _

theorem cellLe_antisymm {a b : Cell} (h₁ : cellLe a b) (h₂ : cellLe b a) : a = b := by
  cases a <;> cases b <;> simp_all [cellLe, Cell.rank]
  · exact strLeB_antisymm h₁ h₂
  · omega

theorem cellLe_trans {a b c : Cell} (h₁ : cellLe a b) (h₂ : cellLe b c) : cellLe a c := by
  cases a <;> cases b <;> cases c <;> simp_all [cellLe, Cell.rank]
  · exact strLeB_trans h₁ h₂
  · omega

theorem keyLe_total (k₁ k₂ : List Cell) : keyLe k₁ k₂ || keyLe k₂ k₁ := by
  induction k₁ generalizing k₂ with
  | nil => simp [keyLe]
  | cons a as ih =>
    cases k₂ with
    | nil => simp [keyLe]
    | cons b bs =>
      by_cases hab : a = b
      · subst hab
        simpa [keyLe] using ih bs
      · have hba : b ≠ a := fun h => hab h.symm
        simp only [keyLe, if_neg hab, if_neg hba]
        simpa using cellLe_total a b

theorem keyLe_trans {k₁ k₂ k₃ : List Cell} (h₁ : keyLe k₁ k₂) (h₂ : keyLe k₂ k₃) :
    keyLe k₁ k₃ := by
  induction k₁ generalizing k₂ k₃ with
  | nil => simp [keyLe]
  | cons a as ih =>
    cases k₂ with
    | nil => simp [keyLe] at h₁
    | cons b bs =>
      cases k₃ with
      | nil => simp [keyLe] at h₂
      | cons c cs =>
        by_cases hab : a = b <;> by_cases hbc : b = c
        · subst hab; subst hbc
          simp only [keyLe, if_pos rfl] at h₁ h₂ ⊢
          exact ih h₁ h₂
        · subst hab
          simp only [keyLe, if_pos rfl] at h₁
          simpa [keyLe, hbc] using h₂
        · subst hbc
          simpa [keyLe, hab] using h₁
        · simp only [keyLe, if_neg hab, if_neg hbc] at h₁ h₂
          by_cases hac : a = c
          · subst hac
            exact absurd (cellLe_antisymm h₁ h₂) hab
          · simp only [keyLe, if_neg hac]
            exact cellLe_trans h₁ h₂

theorem mem_insertSorted {α : Type} (le : α → α → Bool) (a x : α) :
    ∀ l : List α, x ∈ insertSorted le a l ↔ x = a ∨ x ∈ l
  | [] => by simp [insertSorted]
  | b :: bs => by
    unfold insertSorted
    by_cases h : le a b
    · simp only [h, if_true, List.mem_cons]
    · simp only [h, Bool.false_eq_true, if_false, List.mem_cons,
        mem_insertSorted le a x bs]
      tauto

theorem mem_insSort {α : Type} (le : α → α → Bool) (x : α) :
    ∀ l : List α, x ∈ insSort le l ↔ x ∈ l
  | [] => Iff.rfl
  | a :: as => by
    unfold insSort
    rw [mem_insertSorted, mem_insSort le x as]
    simp

theorem insertSorted_pairwise {α : Type} (le : α → α → Bool)
    (htot : ∀ a b, (le a b || le b a) = true)
    (htr : ∀ a b c, le a b = true → le b c = true → le a c = true) (a : α) :
    ∀ l : List α, l.Pairwise (fun x y => le x y = true) →
      (insertSorted le a l).Pairwise (fun x y => le x y = true)
  | [], _ => by simp [insertSorted]
  | b :: bs, hp => by
    unfold insertSorted
    rcases List.pairwise_cons.mp hp with ⟨hb, hbs⟩
    by_cases h : le a b
    · rw [if_pos h]
      refine List.pairwise_cons.mpr ⟨?_, hp⟩
      intro x hx
      rcases List.mem_cons.mp hx with rfl | hx2
      · exact h
      · exact htr a b x h (hb x hx2)
    · rw [if_neg h]
      refine List.pairwise_cons.mpr ⟨?_, insertSorted_pairwise le htot htr a bs hbs⟩
      intro x hx
      rcases (mem_insertSorted le a x bs).mp hx with rfl | hx2
      · have hba := htot x b
        simp only [h, Bool.false_or] at hba
        exact hba
      · exact hb x hx2

theorem insSort_pairwise {α : Type} (le : α → α → Bool)
    (htot : ∀ a b, (le a b || le b a) = true)
    (htr : ∀ a b c, le a b = true → le b c = true → le a c = true) :
    ∀ l : List α, (insSort le l).Pairwise (fun x y => le x y = true)
  | [] => List.Pairwise.nil
  | a :: as => insertSorted_pairwise le htot htr a _ (insSort_pairwise le htot htr as)

theorem sortBy_sorted (df : DF) (keys : List String) :
    (df.sortBy keys).rows.Chain'
      (fun r1 r2 => keyLe (rowKey keys r1) (rowKey keys r2)) := by
  have hp : (df.sortBy keys).rows.Pairwise
      (fun r1 r2 => keyLe (rowKey keys r1) (rowKey keys r2) = true) := by
    apply insSort_pairwise
    · intro a b
      exact keyLe_total _ _
    · intro a b c h₁ h₂
      exact keyLe_trans h₁ h₂
  exact hp.chain'

theorem chain'_of_forall {α : Type} {R : α → α → Prop} (h : ∀ a b, R a b) :
    ∀ l : List α, l.Chain' R
  | [] => List.chain'_nil
  | [_] => List.chain'_singleton _
  | a :: b :: l => (List.chain'_cons).mpr ⟨h a b, chain'_of_forall h (b :: l)⟩

end CaribData

namespace CaribData

/-- C1 (amended): immediately after `cache_set(key, v)`, `cache_get(key,
ttl)` with `ttl > 0` returns `v` unchanged; `cache_get` returns absent
exactly when the entry file does not exist, the entry is older than a
positive TTL, the stored payload fails to parse, **or the stored payload
is JSON `null`**; and `ttl_hours = 0` disables expiry (the result does
not depend on the clock). -/
theorem cache_contract (store : CacheStore) (now t t₁ t₂ : Int) (key : String) (v : Json)
    (ttl : Int) :
    (ttl > 0 → cache_get (cache_set store key v now) now key ttl = v)
    ∧ (cache_get store t key ttl = Json.null ↔ cacheCodeAbsent store t key ttl)
    ∧ cache_get store t₁ key 0 = cache_get store t₂ key 0 := by
  refine ⟨?_, ?_, ?_⟩
  · intro hpos
    have hns : ¬ (ttl > 0 ∧ now - now > ttl * 3600) := by
      rintro ⟨h1, h2⟩; omega
    simp [cache_get, cache_set, storeLookup, List.find?, hns]
    intro h1 h2
    exact absurd h2 (by omega)
  · unfold cache_get cacheCodeAbsent cacheSpecAbsent
    cases hl : storeLookup store key with
    | none => simp [hl]
    | some f =>
      simp only [hl]
      by_cases hst : ttl > 0 ∧ t - f.mtime > ttl * 3600
      · rw [if_pos hst]
        simp only [true_iff]
        exact Or.inl (Or.inr (Or.inl ⟨f, rfl, hst.1, hst.2⟩))
      · rw [if_neg hst]
        cases hc : f.content with
        | none => simp [hc]
        | some j =>
          cases j <;> simp_all
  · unfold cache_get
    cases storeLookup store key with
    | none => rfl
    | some f => simp

/-- Witness for C1's theorem at a concrete input. -/
theorem cache_contract_witness :
    cache_get (cache_set [] "k" (Json.num 5) 0) 0 "k" 24 = Json.num 5 :=
  (cache_contract [] 0 0 0 0 "k" (Json.num 5) 24).1 (by norm_num)

/-- C1 counterexample: after `cache_set(key, null)` the immediate
`cache_get` returns `None` although the entry file exists, is fresh, and
parses — the claim's "exactly when" characterization fails on the JSON
`null` payload. -/
theorem cache_null_payload_cex :
    cache_get (cache_set [] "k" Json.null 0) 0 "k" 24 = Json.null
    ∧ ¬ cacheSpecAbsent (cache_set [] "k" Json.null 0) 0 "k" 24 := by
  constructor
  · rfl
  · have e : storeLookup (cache_set [] "k" Json.null 0) "k" = some ⟨some Json.null, 0⟩ := rfl
    rintro (h | ⟨f, hf, hpos, hst⟩ | ⟨f, hf, hc⟩)
    · rw [e] at h; cases h
    · rw [e] at hf
      cases hf
      simp only at hst
      omega
    · rw [e] at hf
      cases hf
      cases hc

/-- C9: on a cache miss whose HTTP body fails to parse,
`fao_fetch_domain` caches `{}` under the request key and returns an empty
row list with no exception; the outcome is the one a genuine `{}`
response would produce; and any later call with the same key inside the
TTL window returns `[]` from the cache without issuing a request,
whatever the network would do. -/
theorem fao_parse_failure_caches_empty (store : CacheStore) (now now' : Int)
    (base domain : String) (params : List (String × String)) (ttl : Int) (http' : HttpOutcome)
    (hmiss : storeLookup store (buildKey (base ++ "/" ++ domain) params) = none)
    (hwin : ttl > 0 → now' - now ≤ ttl * 3600) :
    fao_fetch_domain (.resp none) store now base domain params ttl =
      .ok ⟨[], cache_set store (buildKey (base ++ "/" ++ domain) params) (Json.obj []) now, true⟩
    ∧ fao_fetch_domain (.resp none) store now base domain params ttl =
      fao_fetch_domain (.resp (some (Json.obj []))) store now base domain params ttl
    ∧ fao_fetch_domain http'
        (cache_set store (buildKey (base ++ "/" ++ domain) params) (Json.obj []) now)
        now' base domain params ttl =
      .ok ⟨[], cache_set store (buildKey (base ++ "/" ++ domain) params) (Json.obj []) now,
        false⟩ := by
  refine ⟨?_, ?_, ?_⟩
  · simp [fao_fetch_domain, cache_get, hmiss, jsonIsNull, normalizeFaoPayload, jsonLookup]
  · simp [fao_fetch_domain, cache_get, hmiss, jsonIsNull, normalizeFaoPayload, jsonLookup]
  · have hns : ¬ (ttl > 0 ∧ now' - now > ttl * 3600) := by
      rintro ⟨h1, h2⟩
      exact absurd (hwin h1) (by omega)
    simp [fao_fetch_domain, cache_get, cache_set, storeLookup, List.find?, hns,
      jsonIsNull, normalizeFaoPayload, jsonLookup]

/-- Witness for C9's theorem at a concrete input. -/
theorem fao_parse_failure_caches_empty_witness :
    fao_fetch_domain (.resp none) [] 0 "b" "d" [] 24 =
      .ok ⟨[], cache_set [] (buildKey "b/d" []) (Json.obj []) 0, true⟩ :=
  (fao_parse_failure_caches_empty [] 0 10 "b" "d" [] 24 (.raised "x") rfl
    (by intro _; omega)).1

theorem headerish_arith (S N : Nat) (hle : S ≤ N) :
    (decide (N ≠ 0) && decide (5 * S ≥ 3 * max 1 N)) = decide (((S : ℚ) / (N : ℚ)) ≥ 3 / 5) := by
  rcases Nat.eq_zero_or_pos N with h0 | hpos
  · subst h0
    have hs : S = 0 := Nat.le_zero.mp hle
    subst hs
    norm_num
  · have hne : N ≠ 0 := Nat.pos_iff_ne_zero.mp hpos
    have hmax : max 1 N = N := by omega
    rw [hmax]
    have h1 : (0 : ℚ) < (N : ℚ) := by exact_mod_cast hpos
    have hiff : ((3 : ℚ) / 5 ≤ (S : ℚ) / (N : ℚ)) ↔ (5 * S ≥ 3 * N) := by
      rw [div_le_div_iff₀ (by norm_num) h1]
      constructor
      · intro h
        have h2 : (3 : ℚ) * N ≤ 5 * S := by linarith
        exact_mod_cast h2
      · intro h
        have h2 : (3 : ℚ) * N ≤ 5 * S := by exact_mod_cast h
        linarith
    simp [hne, ge_iff_le, hiff]

theorem rowHeaderish_eq (row : XRow) : rowHeaderish row = specHeaderish row := by
  have hff : (row.filter (fun v => xNonEmpty v && xIsStr v)) =
      (row.filter xNonEmpty).filter xIsStr := by
    rw [List.filter_filter]
    exact List.filter_congr (fun a _ => by rw [Bool.and_comm])
  have hle : (row.filter (fun v => xNonEmpty v && xIsStr v)).length ≤
      (row.filter xNonEmpty).length := by
    rw [hff]
    exact List.length_filter_le _ _
  simp only [rowHeaderish, specHeaderish]
  exact headerish_arith _ _ hle

/-- C8: for every worksheet, the reported best-guess header row is the
1-based index of the first of the first 10 rows in which at least 60% of
the non-empty cells are strings (as an exact rational comparison, so an
all-empty row never qualifies), and `None` when no such row exists. -/
theorem excel_header_row_guess (sheet : List XRow) :
    header_row_guess sheet = specHeaderRow sheet := by
  unfold header_row_guess specHeaderRow
  rw [show rowHeaderish = specHeaderish from funext rowHeaderish_eq]

end CaribData


namespace CaribData

theorem processItem_mono (uj : String → String → String) (env : MessyEnv)
    (st : MessyOut) (it : MessyItem) :
    (∀ e ∈ st.errors, e ∈ (processItem uj env st it).errors)
    ∧ (∀ m ∈ st.manifest, m ∈ (processItem uj env st it).manifest) := by
  unfold processItem
  by_cases h : is_file_url it.url
  · simp only [h, if_true]
    cases h' : env.fetchFile it.url <;> constructor <;> intro x hx <;> simp [h', hx]
  · simp only [h, Bool.false_eq_true, if_false]
    cases hd : discover_xlsx_link uj env it.url with
    | none => constructor <;> intro x hx <;> simp [hd, hx]
    | some l =>
      cases h' : env.fetchFile l <;> constructor <;> intro x hx <;> simp [hd, h', hx]

theorem messyFold_mono (uj : String → String → String) (env : MessyEnv) :
    ∀ (items : List MessyItem) (st : MessyOut),
    (∀ e ∈ st.errors, e ∈ (items.foldl (processItem uj env) st).errors)
    ∧ (∀ m ∈ st.manifest, m ∈ (items.foldl (processItem uj env) st).manifest)
  | [], _ => ⟨fun _ he => he, fun _ hm => hm⟩
  | it :: rest, st => by
    refine ⟨fun x hx => ?_, fun x hx => ?_⟩
    · exact (messyFold_mono uj env rest _).1 x ((processItem_mono uj env st it).1 x hx)
    · exact (messyFold_mono uj env rest _).2 x ((processItem_mono uj env st it).2 x hx)

theorem processItem_none_error (uj : String → String → String) (env : MessyEnv)
    (st : MessyOut) (it : MessyItem) (hnf : is_file_url it.url = false)
    (hnone : discover_xlsx_link uj env it.url = none) :
    (it.slug, it.url, "No .xlsx link discovered on page") ∈ (processItem uj env st it).errors := by
  unfold processItem
  simp [hnf, hnone]

theorem processItem_file_manifest (uj : String → String → String) (env : MessyEnv)
    (st : MessyOut) (it : MessyItem) (n : Nat) (hf : is_file_url it.url = true)
    (hok : env.fetchFile it.url = .ok n) :
    (it.slug, it.url, it.url) ∈ (processItem uj env st it).manifest := by
  unfold processItem
  simp [hf, hok]

/-- C7 (amended): for every configured item whose URL is not a direct
file link by extension, the fetcher retrieves the page and selects the
first anchor href matching the `.xlsx` extension (not `.xls` or `.csv`),
resolving a relative href against the page URL; if no such link is found,
an error record `(slug, url, message)` is appended and the remaining
items are still processed. -/
theorem messy_page_discovery (uj : String → String → String) (env : MessyEnv)
    (items : List MessyItem) (it : MessyItem) (hmem : it ∈ items)
    (hnotfile : is_file_url it.url = false) :
    (∀ hrefs, env.page it.url = .ok hrefs →
      discover_xlsx_link uj env it.url =
        (hrefs.find? xlsxLink).map (fun href =>
          if strLeads "http" (strLower href) then href else uj it.url href))
    ∧ (discover_xlsx_link uj env it.url = none →
        (it.slug, it.url, "No .xlsx link discovered on page") ∈
          (fetch_messy_main uj env items).errors)
    ∧ (∀ it₂ ∈ items, ∀ n, is_file_url it₂.url = true → env.fetchFile it₂.url = .ok n →
        (it₂.slug, it₂.url, it₂.url) ∈ (fetch_messy_main uj env items).manifest) := by
  refine ⟨?_, ?_, ?_⟩
  · intro hrefs h
    simp [discover_xlsx_link, h]
  · intro hnone
    obtain ⟨pre, post, rfl⟩ := List.append_of_mem hmem
    unfold fetch_messy_main
    rw [List.foldl_append, List.foldl_cons]
    exact (messyFold_mono uj env post _).1 _
      (processItem_none_error uj env _ it hnotfile hnone)
  · intro it₂ hmem₂ n hf hok
    obtain ⟨pre, post, rfl⟩ := List.append_of_mem hmem₂
    unfold fetch_messy_main
    rw [List.foldl_append, List.foldl_cons]
    exact (messyFold_mono uj env post _).2 _
      (processItem_file_manifest uj env _ it₂ n hf hok)

theorem messy_page_discovery_witness :
    discover_xlsx_link (fun b h => b ++ "/" ++ h)
      ⟨fun _ => .ok ["skip.txt", "rel/f.xlsx"], fun _ => .ok 1⟩ "p" = some "p/rel/f.xlsx" :=
  ((messy_page_discovery (fun b h => b ++ "/" ++ h)
      ⟨fun _ => .ok ["skip.txt", "rel/f.xlsx"], fun _ => .ok 1⟩
      [⟨"s", "p"⟩] ⟨"s", "p"⟩ (List.Mem.head _) rfl).1
    ["skip.txt", "rel/f.xlsx"] rfl).trans rfl

/-- C7 counterexample: on a page whose only anchor is `f.xls` — a
spreadsheet extension by the claim's own list — the discoverer selects
nothing and the item records the no-link error, so "first anchor matching
a spreadsheet extension" is false as stated. -/
theorem messy_xls_not_selected_cex :
    is_file_url "f.xls" = true
    ∧ discover_xlsx_link (fun _ h => h) ⟨fun _ => .ok ["f.xls"], fun _ => .ok 0⟩ "p" = none
    ∧ (fetch_messy_main (fun _ h => h) ⟨fun _ => .ok ["f.xls"], fun _ => .ok 0⟩
        [⟨"s", "p"⟩]).errors = [("s", "p", "No .xlsx link discovered on page")] :=
  ⟨rfl, rfl, rfl⟩

end CaribData

namespace CaribData

theorem wbSeriesFold_out (env : WBEnv) (code : String) (meta : WBMeta) :
    ∀ (cs : List String) (st : WBOut),
    (cs.foldl (wbSeriesStep env code meta) st).errors
        = st.errors ++ seriesErrsFor env code meta cs
    ∧ (cs.foldl (wbSeriesStep env code meta) st).files
        = st.files ++ seriesFilesFor env code meta cs
  | [], st => by simp [seriesErrsFor, seriesFilesFor]
  | c :: cs, st => by
    have ih := wbSeriesFold_out env code meta cs (wbSeriesStep env code meta st c)
    refine ⟨?_, ?_⟩
    · rw [List.foldl_cons, ih.1]
      cases hp : processSeries env code meta c with
      | error e => simp [wbSeriesStep, hp, seriesErrsFor, List.filterMap_cons]
      | ok o =>
        cases o with
        | none => simp [wbSeriesStep, hp, seriesErrsFor, List.filterMap_cons]
        | some rows => simp [wbSeriesStep, hp, seriesErrsFor, List.filterMap_cons]
    · rw [List.foldl_cons, ih.2]
      cases hp : processSeries env code meta c with
      | error e => simp [wbSeriesStep, hp, seriesFilesFor, List.filterMap_cons]
      | ok o =>
        cases o with
        | none => simp [wbSeriesStep, hp, seriesFilesFor, List.filterMap_cons]
        | some rows => simp [wbSeriesStep, hp, seriesFilesFor, List.filterMap_cons]

theorem wbIndicatorStep_out (env : WBEnv) (countries : List String) (st : WBOut)
    (entry : String × WBMeta) :
    (wbIndicatorStep env countries st entry).errors
        = st.errors ++ indicatorErrs env countries entry
    ∧ (wbIndicatorStep env countries st entry).files
        = st.files ++ seriesFilesFor env entry.1 entry.2 countries := by
  unfold wbIndicatorStep indicatorErrs
  have key : ∀ st1 : WBOut,
      (countries.foldl (wbSeriesStep env entry.1 entry.2) st1).errors
          = st1.errors ++ seriesErrsFor env entry.1 entry.2 countries
      ∧ (countries.foldl (wbSeriesStep env entry.1 entry.2) st1).files
          = st1.files ++ seriesFilesFor env entry.1 entry.2 countries :=
    fun st1 => wbSeriesFold_out env entry.1 entry.2 countries st1
  cases hm : env.metaFetch entry.1 with
  | error e =>
    simp only [hm]
    constructor
    · rw [(key _).1]; simp [metaErrsFor, hm]
    · rw [(key _).2]
  | ok md =>
    cases hx : wbMetaExtract md with
    | error e =>
      simp only [hm, hx]
      constructor
      · rw [(key _).1]; simp [metaErrsFor, hm, hx]
      · rw [(key _).2]
    | ok u =>
      simp only [hm, hx]
      constructor
      · rw [(key _).1]; simp [metaErrsFor, hm, hx]
      · rw [(key _).2]

theorem wb_build_out (env : WBEnv) (countries : List String) :
    ∀ (inds : List (String × WBMeta)) (st : WBOut),
    (inds.foldl (wbIndicatorStep env countries) st).errors
        = st.errors ++ (inds.map (indicatorErrs env countries)).flatten
    ∧ (inds.foldl (wbIndicatorStep env countries) st).files
        = st.files ++ (inds.map (fun e => seriesFilesFor env e.1 e.2 countries)).flatten
  | [], st => by simp
  | e :: es, st => by
    have ih := wb_build_out env countries es (wbIndicatorStep env countries st e)
    have step := wbIndicatorStep_out env countries st e
    simp only [List.foldl_cons, List.map_cons, List.flatten_cons]
    constructor
    · rw [ih.1, step.1, List.append_assoc]
    · rw [ih.2, step.2, List.append_assoc]

theorem build_world_bank_errors (cfg : WBCfg) (env : WBEnv) :
    (build_world_bank cfg env).errors
      = (cfg.indicators.map (indicatorErrs env cfg.countries)).flatten := by
  have h := (wb_build_out env cfg.countries cfg.indicators ⟨[], []⟩).1
  simpa [build_world_bank] using h

theorem build_world_bank_files (cfg : WBCfg) (env : WBEnv) :
    (build_world_bank cfg env).files
      = (cfg.indicators.map (fun e => seriesFilesFor env e.1 e.2 cfg.countries)).flatten := by
  have h := (wb_build_out env cfg.countries cfg.indicators ⟨[], []⟩).2
  simpa [build_world_bank] using h

end CaribData

namespace CaribData

theorem wb_file_inv (cfg : WBCfg) (env : WBEnv) (code c : String) (rows : List WBRowOut)
    (h : ((code, c), rows) ∈ (build_world_bank cfg env).files) :
    ∃ meta, (code, meta) ∈ cfg.indicators ∧ c ∈ cfg.countries
      ∧ processSeries env code meta c = .ok (some rows) := by
  rw [build_world_bank_files, List.mem_flatten] at h
  obtain ⟨l, hl, hx⟩ := h
  rw [List.mem_map] at hl
  obtain ⟨entry, hent, rfl⟩ := hl
  rw [seriesFilesFor, List.mem_filterMap] at hx
  obtain ⟨c', hc', heq⟩ := hx
  cases hp : processSeries env entry.1 entry.2 c' <;> rw [hp] at heq
  · cases heq
  case ok o =>
    cases o with
    | none => cases heq
    | some rows' =>
      injection heq with heq2
      obtain ⟨h1, h2⟩ := Prod.mk.injEq .. ▸ heq2
      obtain ⟨hcode, hc2⟩ := Prod.mk.injEq .. ▸ h1
      subst hcode; subst hc2; subst h2
      exact ⟨entry.2, by simpa using hent, hc', hp⟩

theorem wb_file_fwd (cfg : WBCfg) (env : WBEnv) (code : String) (meta : WBMeta)
    (c : String) (rows : List WBRowOut)
    (h1 : (code, meta) ∈ cfg.indicators) (h2 : c ∈ cfg.countries)
    (h3 : processSeries env code meta c = .ok (some rows)) :
    ((code, c), rows) ∈ (build_world_bank cfg env).files := by
  rw [build_world_bank_files, List.mem_flatten]
  refine ⟨seriesFilesFor env code meta cfg.countries, ?_, ?_⟩
  · exact List.mem_map.mpr ⟨(code, meta), h1, rfl⟩
  · rw [seriesFilesFor, List.mem_filterMap]
    exact ⟨c, h2, by rw [h3]⟩

theorem wb_data_err_inv (cfg : WBCfg) (env : WBEnv) (code c e : String)
    (h : WBErr.data code c e ∈ (build_world_bank cfg env).errors) :
    ∃ meta, (code, meta) ∈ cfg.indicators ∧ c ∈ cfg.countries
      ∧ processSeries env code meta c = .error e := by
  rw [build_world_bank_errors, List.mem_flatten] at h
  obtain ⟨l, hl, hx⟩ := h
  rw [List.mem_map] at hl
  obtain ⟨entry, hent, rfl⟩ := hl
  rw [indicatorErrs, List.mem_append] at hx
  rcases hx with hx | hx
  · exfalso
    unfold metaErrsFor at hx
    split at hx
    · simp at hx
    · split at hx <;> simp at hx
  · rw [seriesErrsFor, List.mem_filterMap] at hx
    obtain ⟨c', hc', heq⟩ := hx
    cases hp : processSeries env entry.1 entry.2 c' <;> rw [hp] at heq
    case error e' =>
      injection heq with heq2
      injection heq2 with h1 h2 h3
      subst h1; subst h2; subst h3
      exact ⟨entry.2, by simpa using hent, hc', hp⟩
    case ok o => cases o <;> cases heq

/-- C6: a series response that is not a list, or has fewer than two
elements, or whose second element is the empty row list, is treated as
"no data": the per-country step leaves the state unchanged, so no CSV is
written and no error is recorded for that indicator × country, and the
loop proceeds. -/
theorem wb_bad_shape_no_data (cfg : WBCfg) (env : WBEnv) (code c : String) (data : Json)
    (hresp : env.seriesFetch code c = .ok data)
    (hbad : (∀ xs, data ≠ Json.arr xs)
      ∨ (∃ xs, data = Json.arr xs ∧ xs.length < 2)
      ∨ (∃ xs, data = Json.arr xs ∧ xs.getD 1 Json.null = Json.arr [])) :
    (∀ meta st, wbSeriesStep env code meta st c = st)
    ∧ (∀ rows, ((code, c), rows) ∉ (build_world_bank cfg env).files)
    ∧ (∀ e, WBErr.data code c e ∉ (build_world_bank cfg env).errors) := by
  have hshape : wbShapeOk data = false := by
    rcases hbad with h | ⟨xs, rfl, hlen⟩ | ⟨xs, rfl, hemp⟩
    · cases data <;> first
        | rfl
        | exact absurd rfl (h _)
    · simp [wbShapeOk]
      omega
    · show (decide (xs.length > 1) && jsonTruthy (jsonSecond xs)) = false
      rw [show jsonSecond xs = Json.arr [] from hemp]
      simp [jsonTruthy]
  have hns : ∀ meta, processSeries env code meta c = .ok none := by
    intro meta
    unfold processSeries
    rw [hresp]
    simp [hshape]
  refine ⟨fun meta st => by simp [wbSeriesStep, hns meta], fun rows hmem => ?_,
    fun e hmem => ?_⟩
  · obtain ⟨meta, _, _, hp⟩ := wb_file_inv cfg env code c rows hmem
    rw [hns meta] at hp
    simp at hp
  · obtain ⟨meta, _, _, hp⟩ := wb_data_err_inv cfg env code c e hmem
    rw [hns meta] at hp
    simp at hp

end CaribData

namespace CaribData

theorem tidyRow_fields (code c u : String) (r : Json) (x : WBRowOut)
    (h : tidyRow code c u r = .ok x) : x.iso2c = c ∧ x.indicator = code ∧ x.unit = u := by
  unfold tidyRow at h
  cases r <;> try (cases h)
  case obj kvs =>
    dsimp only at h
    cases ht : orEmptyObj ((jsonLookup kvs "country").getD Json.null) <;> rw [ht] at h <;>
      try (cases h)
    case obj ckvs =>
      exact ⟨rfl, rfl, rfl⟩

theorem tidyAll_fields (code c u : String) : ∀ (rs : List Json) (tidy : List WBRowOut),
    tidyAll code c u rs = .ok tidy →
    ∀ x ∈ tidy, x.iso2c = c ∧ x.indicator = code ∧ x.unit = u
  | [], tidy, h => by
    cases h
    intro x hx
    cases hx
  | r :: rs, tidy, h => by
    unfold tidyAll at h
    cases h1 : tidyRow code c u r <;> rw [h1] at h
    · cases h
    case ok y =>
      cases h2 : tidyAll code c u rs <;> rw [h2] at h
      · cases h
      case ok ys =>
        cases h
        intro x hx
        rcases List.mem_cons.mp hx with rfl | hx2
        · exact tidyRow_fields _ _ _ _ _ h1
        · exact tidyAll_fields code c u rs ys h2 x hx2

theorem processSeries_some_inv (env : WBEnv) (code : String) (meta : WBMeta) (c : String)
    (rows : List WBRowOut) (h : processSeries env code meta c = .ok (some rows)) :
    ∀ x ∈ rows, x.iso2c = c ∧ x.indicator = code ∧ x.unit = meta.unit := by
  unfold processSeries at h
  cases hf : env.seriesFetch code c <;> rw [hf] at h <;> dsimp only at h
  · cases h
  case ok data =>
    by_cases hs : wbShapeOk data
    · rw [if_pos hs] at h
      cases data <;> try (dsimp only at h) <;> try (exact absurd h (by simp))
      next xs =>
        try (dsimp only at h)
        cases hx : jsonSecond xs <;> rw [hx] at h <;> try (dsimp only at h) <;>
          try (exact absurd h (by simp))
        next rows0 =>
          try (dsimp only at h)
          cases ht : tidyAll code c meta.unit rows0 <;> rw [ht] at h <;>
            try (dsimp only at h)
          · cases h
          next tidy =>
            by_cases he : tidy.isEmpty
            · rw [if_pos he] at h
              exact absurd h (by simp)
            · rw [if_neg he] at h
              cases h
              intro x hx2
              have hmem : x ∈ tidy := (mem_insSort _ x _).mp hx2
              exact tidyAll_fields code c meta.unit rows0 tidy ht x hmem
    · rw [if_neg hs] at h
      exact absurd h (by simp)

/-- C5: the spec's example scenario — indicator `SP.POP.TOTL`, country
`BZ`, unit override `"people"`, response
`[{meta}, [{"date":"2020","value":400000,"country":{"value":"Belize"}}]]`
— produces exactly one CSV row
`{Belize, BZ, "2020", SP.POP.TOTL, 400000, people}` and no error; and in
every normalized row of any build, `iso2c` is the configured country code
and `unit` comes from the local config override. -/
theorem wb_example_row :
    build_world_bank wbCfgEx wbEnvEx = ⟨[(("SP.POP.TOTL", "BZ"), [wbRowEx])], []⟩
    ∧ (∀ (cfg : WBCfg) (env : WBEnv) (code c : String) (rows : List WBRowOut),
        ((code, c), rows) ∈ (build_world_bank cfg env).files →
        ∀ x ∈ rows, x.iso2c = c ∧ ∃ meta, (code, meta) ∈ cfg.indicators ∧ x.unit = meta.unit) := by
  constructor
  · rfl
  · intro cfg env code c rows hmem x hx
    obtain ⟨meta, hind, hc, hp⟩ := wb_file_inv cfg env code c rows hmem
    have hfields := processSeries_some_inv env code meta c rows hp x hx
    exact ⟨hfields.1, meta, hind, hfields.2.2⟩

theorem wb_example_row_witness :
    wbRowEx.iso2c = "BZ"
    ∧ ∃ meta, ("SP.POP.TOTL", meta) ∈ wbCfgEx.indicators ∧ wbRowEx.unit = meta.unit :=
  wb_example_row.2 wbCfgEx wbEnvEx "SP.POP.TOTL" "BZ" [wbRowEx]
    (by rw [wb_example_row.1]; exact List.Mem.head _)
    wbRowEx (List.Mem.head _)

theorem wb_bad_shape_no_data_witness :
    wbSeriesStep ⟨fun _ => .ok (Json.obj []), fun _ _ => .ok (Json.arr [])⟩ "I" ⟨"", "", ""⟩
      ⟨[], []⟩ "C" = ⟨[], []⟩ :=
  (wb_bad_shape_no_data ⟨[], []⟩ ⟨fun _ => .ok (Json.obj []), fun _ _ => .ok (Json.arr [])⟩
    "I" "C" (Json.arr []) rfl (Or.inr (Or.inl ⟨[], rfl, by decide⟩))).1 ⟨"", "", ""⟩ ⟨[], []⟩

end CaribData

namespace CaribData

theorem flatten_nil_of {α β : Type} (f : α → List β) :
    ∀ l : List α, (∀ x ∈ l, f x = []) → (l.map f).flatten = []
  | [], _ => rfl
  | a :: as, h => by
    simp only [List.map_cons, List.flatten_cons, h a (List.Mem.head _)]
    simpa using flatten_nil_of f as (fun x hx => h x (List.mem_cons_of_mem a hx))

/-- C3: with five configured indicators over one country, exactly one of
which raises on its series fetch while the other four return valid
non-empty data, the build completes with CSVs written for the other four,
no file for the failed indicator, and `_errors.json` holding exactly the
one `wb_data` record — each per-dimension error is caught and appended,
and the loop continues. -/
theorem wb_fail_soft (env : WBEnv) (c ij msg : String) (mj : WBMeta)
    (pre post : List (String × WBMeta))
    (hlen : pre.length + post.length = 4)
    (hmeta : ∀ entry ∈ pre ++ (ij, mj) :: post, metaErrsFor env entry.1 = [])
    (hfail : env.seriesFetch ij c = .error msg)
    (hok : ∀ entry ∈ pre ++ post, ∃ rows,
      processSeries env entry.1 entry.2 c = .ok (some rows)) :
    (build_world_bank ⟨pre ++ (ij, mj) :: post, [c]⟩ env).errors = [.data ij c msg]
    ∧ (∀ entry ∈ pre ++ post, ∃ rows,
        ((entry.1, c), rows) ∈ (build_world_bank ⟨pre ++ (ij, mj) :: post, [c]⟩ env).files)
    ∧ (∀ rows, ((ij, c), rows) ∉ (build_world_bank ⟨pre ++ (ij, mj) :: post, [c]⟩ env).files)
    ∧ wbErrorsFileWritten (build_world_bank ⟨pre ++ (ij, mj) :: post, [c]⟩ env) = true := by
  have hpj : ∀ meta, processSeries env ij meta c = .error msg := by
    intro meta
    unfold processSeries
    rw [hfail]
  have herr : (build_world_bank ⟨pre ++ (ij, mj) :: post, [c]⟩ env).errors
      = [.data ij c msg] := by
    rw [build_world_bank_errors]
    simp only [List.map_append, List.map_cons, List.flatten_append, List.flatten_cons]
    have hpre : ((pre.map (indicatorErrs env [c])).flatten : List WBErr) = [] := by
      apply flatten_nil_of
      intro entry hent
      unfold indicatorErrs
      rw [hmeta entry (by simp [hent])]
      obtain ⟨rows, hrows⟩ := hok entry (by simp [hent])
      simp [seriesErrsFor, hrows]
    have hpost : ((post.map (indicatorErrs env [c])).flatten : List WBErr) = [] := by
      apply flatten_nil_of
      intro entry hent
      unfold indicatorErrs
      rw [hmeta entry (by simp [hent])]
      obtain ⟨rows, hrows⟩ := hok entry (by simp [hent])
      simp [seriesErrsFor, hrows]
    rw [hpre, hpost]
    have hmid : indicatorErrs env [c] (ij, mj) = [.data ij c msg] := by
      unfold indicatorErrs
      rw [hmeta (ij, mj) (by simp)]
      simp [seriesErrsFor, hpj mj]
    rw [hmid]
    simp
  refine ⟨herr, ?_, ?_, ?_⟩
  · intro entry hent
    obtain ⟨rows, hrows⟩ := hok entry hent
    refine ⟨rows, wb_file_fwd _ env entry.1 entry.2 c rows ?_ (List.Mem.head _) hrows⟩
    rcases List.mem_append.mp hent with h | h
    · exact List.mem_append.mpr (Or.inl h)
    · exact List.mem_append.mpr (Or.inr (List.mem_cons_of_mem _ h))
  · intro rows hmem
    obtain ⟨meta, hind, hc, hp⟩ := wb_file_inv _ env ij c rows hmem
    rw [hpj meta] at hp
    cases hp
  · rw [wbErrorsFileWritten, herr]
    rfl

end CaribData

namespace CaribData

theorem wb_fail_soft_witness :
    (build_world_bank ⟨[("A", wbMetaZero), ("B", wbMetaZero), ("C", wbMetaZero),
        ("D", wbMetaZero), ("E", wbMetaZero)], ["BZ"]⟩ wbEnvFailC).errors
      = [.data "C" "BZ" "boom"] :=
  (wb_fail_soft wbEnvFailC "BZ" "C" "boom" wbMetaZero
    [("A", wbMetaZero), ("B", wbMetaZero)] [("D", wbMetaZero), ("E", wbMetaZero)]
    rfl
    (fun _ _ => rfl)
    rfl
    (by
      intro entry hent
      simp only [List.cons_append, List.nil_append, List.mem_cons,
        List.not_mem_nil, or_false] at hent
      rcases hent with rfl | rfl | rfl | rfl <;> exact ⟨_, rfl⟩)).1

end CaribData

namespace CaribData

theorem getCell_cons (kv : String × Cell) (rest : Row) (c : String) :
    getCell (kv :: rest) c = if kv.1 = c then kv.2 else getCell rest c := by
  by_cases h : kv.1 = c <;> simp [getCell, alist, List.find?, h]

theorem rowSet_cons (kv : String × Cell) (rest : Row) (k : String) (v : Cell) :
    rowSet (kv :: rest) k v = (if kv.1 = k then (k, v) else kv) :: rowSet rest k v := rfl

theorem getCell_rowSet_self (k : String) (v : Cell) :
    ∀ r : Row, k ∈ r.map (·.1) → getCell (rowSet r k v) k = v
  | [], h => by simp at h
  | kv :: rest, h => by
    rw [rowSet_cons]
    by_cases hk : kv.1 = k
    · rw [if_pos hk, getCell_cons, if_pos rfl]
    · rw [if_neg hk, getCell_cons, if_neg hk]
      apply getCell_rowSet_self k v rest
      rw [List.map_cons] at h
      rcases List.mem_cons.mp h with h2 | h2
      · exact absurd h2.symm hk
      · exact h2

theorem getCell_rowSet_ne (k k' : String) (v : Cell) (hne : k' ≠ k) :
    ∀ r : Row, getCell (rowSet r k v) k' = getCell r k'
  | [] => rfl
  | kv :: rest => by
    rw [rowSet_cons]
    by_cases hk : kv.1 = k
    · rw [if_pos hk, getCell_cons, getCell_cons, if_neg (fun h => hne h.symm), if_neg ?_]
      · exact getCell_rowSet_ne k k' v hne rest
      · rw [hk]
        exact fun h => hne h.symm
    · rw [if_neg hk, getCell_cons, getCell_cons]
      by_cases hh : kv.1 = k'
      · rw [if_pos hh, if_pos hh]
      · rw [if_neg hh, if_neg hh]
        exact getCell_rowSet_ne k k' v hne rest

theorem getCell_append_self (k : String) (v : Cell) :
    ∀ r : Row, k ∉ r.map (·.1) → getCell (r ++ [(k, v)]) k = v
  | [], _ => by
    rw [List.nil_append, getCell_cons, if_pos rfl]
  | kv :: rest, h => by
    rw [List.cons_append, getCell_cons, if_neg ?_]
    · exact getCell_append_self k v rest (fun hh => h (by simp [hh]))
    · intro hh
      exact h (by simp [hh])

theorem getCell_append_ne (k k' : String) (v : Cell) (hne : k' ≠ k) :
    ∀ r : Row, getCell (r ++ [(k, v)]) k' = getCell r k'
  | [] => by
    rw [List.nil_append, getCell_cons, if_neg (fun h => hne h.symm)]
  | kv :: rest => by
    rw [List.cons_append, getCell_cons, getCell_cons]
    by_cases hh : kv.1 = k'
    · rw [if_pos hh, if_pos hh]
    · rw [if_neg hh, if_neg hh]
      exact getCell_append_ne k k' v hne rest

theorem getCell_select (r : Row) (k : String) :
    ∀ keep : List String, k ∈ keep →
      getCell (keep.map (fun c => (c, getCell r c))) k = getCell r k
  | [], h => by simp at h
  | c :: rest, h => by
    rw [List.map_cons, getCell_cons]
    by_cases hc : c = k
    · rw [if_pos hc, hc]
    · rw [if_neg hc]
      apply getCell_select r k rest
      rcases List.mem_cons.mp h with h2 | h2
      · exact absurd h2.symm hc
      · exact h2

theorem keyLe_refl : ∀ k : List Cell, keyLe k k = true
  | [] => rfl
  | a :: as => by simp [keyLe, keyLe_refl as]

theorem chain'_key_cons {rows : List Row} {keys : List String} {k : String} {v : Cell}
    (hconst : ∀ r ∈ rows, getCell r k = v)
    (hch : rows.Chain' (fun r1 r2 => keyLe (rowKey keys r1) (rowKey keys r2))) :
    rows.Chain' (fun r1 r2 => keyLe (rowKey (k :: keys) r1) (rowKey (k :: keys) r2)) := by
  induction rows with
  | nil => exact List.chain'_nil
  | cons a t ih =>
    cases t with
    | nil => exact List.chain'_singleton _
    | cons b t2 =>
      rw [List.chain'_cons] at hch ⊢
      refine ⟨?_, ih (fun r hr => hconst r (List.mem_cons_of_mem a hr)) hch.2⟩
      have ha := hconst a (List.Mem.head _)
      have hb := hconst b (List.mem_cons_of_mem a (List.Mem.head _))
      simp only [rowKey, List.map_cons, ha, hb]
      simpa [keyLe] using hch.1

end CaribData

namespace CaribData

theorem filterCE_cols (df : DF) (iso3 : String) (el : List String) :
    (filterCountryElements df iso3 el).cols = df.cols := by
  unfold filterCountryElements
  dsimp only
  split <;> split <;> first | rfl | (split <;> rfl)

theorem filterCE_rows_sub (df : DF) (iso3 : String) (el : List String) :
    ∀ r ∈ (filterCountryElements df iso3 el).rows, r ∈ df.rows := by
  intro r hr
  unfold filterCountryElements at hr
  dsimp only at hr
  split at hr <;> split at hr <;>
    first
    | exact hr
    | exact List.mem_of_mem_filter hr
    | exact List.mem_of_mem_filter (List.mem_of_mem_filter hr)
    | (split at hr <;>
        first
        | exact hr
        | exact List.mem_of_mem_filter hr
        | exact List.mem_of_mem_filter (List.mem_of_mem_filter hr))

theorem filterCE_WF {df : DF} (h : df.WF) (iso3 : String) (el : List String) :
    (filterCountryElements df iso3 el).WF := by
  intro r hr
  rw [filterCE_cols]
  exact h r (filterCE_rows_sub df iso3 el r hr)

theorem setCol_mem_self (df : DF) (k : String) (v : Cell) : k ∈ (df.setCol k v).cols := by
  unfold DF.setCol
  by_cases h : df.cols.contains k
  · rw [if_pos h]
    exact List.mem_of_elem_eq_true h
  · rw [if_neg h]
    simp

theorem setCol_mem (df : DF) (k : String) (v : Cell) (k' : String) (h : k' ∈ df.cols) :
    k' ∈ (df.setCol k v).cols := by
  unfold DF.setCol
  by_cases hc : df.cols.contains k
  · rw [if_pos hc]
    exact h
  · rw [if_neg hc]
    simp [h]

theorem setCol_WF {df : DF} (h : df.WF) (k : String) (v : Cell) : (df.setCol k v).WF := by
  unfold DF.setCol
  by_cases hc : df.cols.contains k
  · rw [if_pos hc]
    intro r hr
    obtain ⟨r0, hr0, rfl⟩ := List.mem_map.mp hr
    have hkeys := h r0 hr0
    show (rowSet r0 k v).map (·.1) = df.cols
    rw [← hkeys]
    unfold rowSet
    rw [List.map_map]
    apply List.map_congr_left
    intro kv _
    by_cases hkv : kv.1 = k
    · simp [hkv]
    · simp [hkv]
  · rw [if_neg hc]
    intro r hr
    obtain ⟨r0, hr0, rfl⟩ := List.mem_map.mp hr
    have hkeys := h r0 hr0
    simp [hkeys]

theorem setCol_getCell_self {df : DF} (h : df.WF) (k : String) (v : Cell) :
    ∀ r ∈ (df.setCol k v).rows, getCell r k = v := by
  intro r hr
  unfold DF.setCol at hr
  by_cases hc : df.cols.contains k
  · rw [if_pos hc] at hr
    obtain ⟨r0, hr0, rfl⟩ := List.mem_map.mp hr
    apply getCell_rowSet_self
    rw [h r0 hr0]
    exact List.mem_of_elem_eq_true hc
  · rw [if_neg hc] at hr
    obtain ⟨r0, hr0, rfl⟩ := List.mem_map.mp hr
    apply getCell_append_self
    rw [h r0 hr0]
    intro hmem
    exact hc (List.elem_eq_true_of_mem hmem)

theorem setCol_getCell_pres {df : DF} (k : String) (v : Cell) (k' : String) (hne : k' ≠ k)
    (w : Cell) (hall : ∀ r ∈ df.rows, getCell r k' = w) :
    ∀ r ∈ (df.setCol k v).rows, getCell r k' = w := by
  intro r hr
  unfold DF.setCol at hr
  by_cases hc : df.cols.contains k
  · rw [if_pos hc] at hr
    obtain ⟨r0, hr0, rfl⟩ := List.mem_map.mp hr
    rw [getCell_rowSet_ne k k' v hne]
    exact hall r0 hr0
  · rw [if_neg hc] at hr
    obtain ⟨r0, hr0, rfl⟩ := List.mem_map.mp hr
    rw [getCell_append_ne k k' v hne]
    exact hall r0 hr0

theorem select_getCell {df : DF} (keep : List String) (k : String) (hk : k ∈ keep)
    (w : Cell) (hall : ∀ r ∈ df.rows, getCell r k = w) :
    ∀ r ∈ (df.select keep).rows, getCell r k = w := by
  intro r hr
  unfold DF.select at hr
  obtain ⟨r0, hr0, rfl⟩ := List.mem_map.mp hr
  rw [getCell_select r0 k keep hk]
  exact hall r0 hr0

theorem sortBy_cols (df : DF) (keys : List String) : (df.sortBy keys).cols = df.cols := rfl

theorem sortBy_rows_sub (df : DF) (keys : List String) :
    ∀ r ∈ (df.sortBy keys).rows, r ∈ df.rows := by
  intro r hr
  exact (mem_insSort _ r df.rows).mp hr

theorem unionCols_sub_left (acc cs : List String) : ∀ c ∈ acc, c ∈ unionCols acc cs := by
  intro c hc
  unfold unionCols
  exact List.mem_append.mpr (Or.inl hc)

theorem unionCols_sub_right (acc cs : List String) : ∀ c ∈ cs, c ∈ unionCols acc cs := by
  intro c hc
  unfold unionCols
  by_cases h : acc.contains c
  · exact List.mem_append.mpr (Or.inl (List.mem_of_elem_eq_true h))
  · refine List.mem_append.mpr (Or.inr ?_)
    rw [List.mem_filter]
    exact ⟨hc, decide_eq_true h⟩

theorem foldl_union_mem_acc :
    ∀ (l : List DF) (acc : List String) (c : String), c ∈ acc →
      c ∈ l.foldl (fun a d => unionCols a d.cols) acc
  | [], _, _, h => h
  | _ :: ds, acc, c, h => foldl_union_mem_acc ds _ c (unionCols_sub_left _ _ c h)

theorem foldl_union_mem :
    ∀ (l : List DF) (acc : List String) (df : DF), df ∈ l → ∀ c ∈ df.cols,
      c ∈ l.foldl (fun a d => unionCols a d.cols) acc
  | d :: ds, acc, df, hdf, c, hc => by
    rcases List.mem_cons.mp hdf with rfl | h2
    · exact foldl_union_mem_acc ds _ c (unionCols_sub_right _ _ c hc)
    · exact foldl_union_mem ds _ df h2 c hc

theorem concatDF_cols_mem (dfs : List DF) (df : DF) (hdf : df ∈ dfs) (c : String)
    (hc : c ∈ df.cols) : c ∈ (DF.concatDF dfs).cols :=
  foldl_union_mem dfs [] df hdf c hc

end CaribData

namespace CaribData

theorem stdCols_WF {df : DF} (h : df.WF) : df.stdCols.WF := by
  intro r hr
  unfold DF.stdCols at hr ⊢
  obtain ⟨r0, hr0, rfl⟩ := List.mem_map.mp hr
  show (r0.map (fun kv => (stdName kv.1, kv.2))).map (·.1) = df.cols.map stdName
  rw [List.map_map, ← h r0 hr0, List.map_map]
  rfl

theorem bulkOut_facts (el : List String) (bulkDf : DF) (iso3 : String) (hwf : bulkDf.WF) :
    (∀ r ∈ (bulkOut el bulkDf iso3).rows, getCell r "_source" = .str "bulk")
    ∧ (bulkOut el bulkDf iso3).sortedByKey := by
  have h0 : (filterCountryElements bulkDf iso3 el).WF := filterCE_WF hwf iso3 el
  set p0 := filterCountryElements bulkDf iso3 el with hp0
  set p1 := p0.setCol "_source" (.str "bulk") with hp1
  set p2 := p1.setCol "_domain" (.str "FBS_BULK") with hp2
  have h1wf : p1.WF := setCol_WF h0 _ _
  have h1s : ∀ r ∈ p1.rows, getCell r "_source" = .str "bulk" :=
    setCol_getCell_self h0 _ _
  have h2s : ∀ r ∈ p2.rows, getCell r "_source" = .str "bulk" :=
    setCol_getCell_pres "_domain" _ "_source" (by decide) _ h1s
  have h2d : ∀ r ∈ p2.rows, getCell r "_domain" = .str "FBS_BULK" :=
    setCol_getCell_self h1wf _ _
  have hsrc2 : "_source" ∈ p2.cols := setCol_mem p1 _ _ _ (setCol_mem_self p0 _ _)
  have hdom2 : "_domain" ∈ p2.cols := setCol_mem_self p1 _ _
  set keep := p2.cols.filter (fun c => keepSet.contains c) with hkeep
  have hsrck : "_source" ∈ keep := by
    rw [hkeep, List.mem_filter]
    exact ⟨hsrc2, by decide⟩
  have hdomk : "_domain" ∈ keep := by
    rw [hkeep, List.mem_filter]
    exact ⟨hdom2, by decide⟩
  set p3 := p2.select keep with hp3
  have h3s : ∀ r ∈ p3.rows, getCell r "_source" = .str "bulk" :=
    select_getCell keep _ hsrck _ h2s
  have h3d : ∀ r ∈ p3.rows, getCell r "_domain" = .str "FBS_BULK" :=
    select_getCell keep _ hdomk _ h2d
  have h3cols : p3.cols = keep := rfl
  have hout : bulkOut el bulkDf iso3 =
      (if (["item", "element", "year"].filter (fun c => p3.cols.contains c)).isEmpty
       then p3 else p3.sortBy (["item", "element", "year"].filter (fun c => p3.cols.contains c))) := by
    rfl
  set sortColsB := ["item", "element", "year"].filter (fun c => p3.cols.contains c) with hsb
  have hdomc : keep.contains "_domain" = true := List.elem_eq_true_of_mem hdomk
  by_cases hemp : sortColsB.isEmpty
  · rw [hout, if_pos hemp]
    refine ⟨h3s, ?_⟩
    unfold DF.sortedByKey
    have hkc : sortKeyCols p3 = ["_domain"] := by
      unfold sortKeyCols
      rw [List.filter_cons]
      have : (p3.cols.contains "_domain") = true := by rw [h3cols]; exact hdomc
      rw [if_pos this]
      have : (["item", "element", "year"].filter (fun c => p3.cols.contains c)) = [] :=
        List.isEmpty_iff.mp hemp
      rw [this]
    rw [hkc]
    apply chain'_key_cons h3d
    apply chain'_of_forall
    intro a b
    rfl
  · rw [hout, if_neg hemp]
    have h4s : ∀ r ∈ (p3.sortBy sortColsB).rows, getCell r "_source" = .str "bulk" :=
      fun r hr => h3s r (sortBy_rows_sub p3 sortColsB r hr)
    have h4d : ∀ r ∈ (p3.sortBy sortColsB).rows, getCell r "_domain" = .str "FBS_BULK" :=
      fun r hr => h3d r (sortBy_rows_sub p3 sortColsB r hr)
    refine ⟨h4s, ?_⟩
    unfold DF.sortedByKey
    have hkc : sortKeyCols (p3.sortBy sortColsB) = "_domain" :: sortColsB := by
      unfold sortKeyCols
      rw [sortBy_cols, List.filter_cons]
      have : (p3.cols.contains "_domain") = true := by rw [h3cols]; exact hdomc
      rw [if_pos this]
    rw [hkc]
    apply chain'_key_cons h4d
    exact sortBy_sorted p3 sortColsB

theorem apiOut_sorted (combined : List DF) (hne : combined ≠ [])
    (hdom : ∀ df ∈ combined, "_domain" ∈ df.cols) : (apiOut combined).sortedByKey := by
  obtain ⟨d0, hd0⟩ : ∃ d, d ∈ combined := by
    cases combined with
    | nil => exact absurd rfl hne
    | cons a t => exact ⟨a, List.Mem.head _⟩
  have hdom0 : "_domain" ∈ (DF.concatDF combined).cols :=
    concatDF_cols_mem combined d0 hd0 _ (hdom d0 hd0)
  unfold apiOut
  dsimp only
  set out0 := DF.concatDF combined with ho0
  set keep := out0.cols.filter (fun c => keepSet.contains c) with hkeep
  have hdomk : "_domain" ∈ keep := by
    rw [hkeep, List.mem_filter]
    exact ⟨hdom0, by decide⟩
  have hkne : ¬ keep.isEmpty := by
    intro h
    rw [List.isEmpty_iff.mp h] at hdomk
    cases hdomk
  rw [if_neg hkne]
  set out1 := out0.select keep with ho1
  have h1cols : out1.cols = keep := rfl
  set sortCols := ["_domain", "item", "element", "year"].filter (fun c => out1.cols.contains c)
    with hsc
  have hscne : ¬ sortCols.isEmpty := by
    intro h
    have : "_domain" ∈ sortCols := by
      rw [hsc, List.mem_filter]
      refine ⟨by simp, ?_⟩
      rw [h1cols]
      exact List.elem_eq_true_of_mem hdomk
    rw [List.isEmpty_iff.mp h] at this
    cases this
  rw [if_neg hscne]
  unfold DF.sortedByKey
  have hkc : sortKeyCols (out1.sortBy sortCols) = sortCols := by
    unfold sortKeyCols
    rw [sortBy_cols]
  rw [hkc]
  exact sortBy_sorted out1 sortCols

end CaribData

namespace CaribData

theorem getFile_setFile_self (fs : Files) (i : String) (d : DF) :
    getFile (setFile fs i d) i = some d := by
  simp [getFile, setFile, alist, List.find?]

theorem getFile_setFile_ne (fs : Files) (i : String) (d : DF) (i' : String) (hne : i' ≠ i) :
    getFile (setFile fs i d) i' = getFile fs i' := by
  have : ¬ (i = i') := fun h => hne h.symm
  simp [getFile, setFile, alist, List.find?, this]

theorem hasFile_setFile_self (fs : Files) (i : String) (d : DF) :
    hasFile (setFile fs i d) i = true := by
  simp [hasFile, getFile_setFile_self]

theorem hasFile_setFile_of (fs : Files) (i : String) (d : DF) (i' : String)
    (h : hasFile fs i' = true) : hasFile (setFile fs i d) i' = true := by
  by_cases hi : i' = i
  · subst hi
    exact hasFile_setFile_self fs i' d
  · rw [hasFile, getFile_setFile_ne fs i d i' hi]
    exact h

theorem apiCountry_errs (cfg : FaoCfg) (env : FaoEnv) (iso3 : String) :
    (apiCountry cfg env iso3).2 = apiErrsFor env iso3 cfg.domains := by
  have hf : ∀ (doms : List String) (acc : List DF × List FaoErr),
      (doms.foldl (apiDomainStep env iso3 cfg.elements) acc).2
        = acc.2 ++ apiErrsFor env iso3 doms := by
    intro doms
    induction doms with
    | nil => intro acc; simp [apiErrsFor]
    | cons dom doms ih =>
      intro acc
      rw [List.foldl_cons, ih]
      unfold apiDomainStep apiErrsFor
      cases hfe : env.apiFetch iso3 dom with
      | error e => simp [List.filterMap_cons, hfe, apiErrsFor]
      | ok rows =>
        by_cases hr : rows.isEmpty
        · simp [List.filterMap_cons, hfe, hr, apiErrsFor]
        · by_cases he :
            (filterCountryElements ((dfOfRecords rows).stdCols) iso3 cfg.elements).rows.isEmpty
          · simp [List.filterMap_cons, hfe, hr, he, apiErrsFor]
          · simp [List.filterMap_cons, hfe, hr, he, apiErrsFor]
  unfold apiCountry
  dsimp only
  split <;> simp [hf cfg.domains ([], [])]

theorem apiFold_bulkWrites (cfg : FaoCfg) (env : FaoEnv) :
    ∀ (cs : List String) (st : FaoOut),
      (cs.foldl (apiCountryStep cfg env) st).bulkWrites = st.bulkWrites
  | [], st => rfl
  | c :: cs, st => by
    rw [List.foldl_cons, apiFold_bulkWrites cfg env cs]
    unfold apiCountryStep
    cases (apiCountry cfg env c).1 <;> rfl

theorem apiFold_apiWrites_inv (cfg : FaoCfg) (env : FaoEnv) :
    ∀ (cs : List String) (st : FaoOut) (x : String × DF),
      x ∈ (cs.foldl (apiCountryStep cfg env) st).apiWrites →
      x ∈ st.apiWrites ∨ (apiCountry cfg env x.1).1 = some x.2
  | [], st, x, h => Or.inl h
  | c :: cs, st, x, h => by
    rw [List.foldl_cons] at h
    rcases apiFold_apiWrites_inv cfg env cs _ x h with h2 | h2
    · unfold apiCountryStep at h2
      cases hc : (apiCountry cfg env c).1 with
      | none =>
        rw [hc] at h2
        exact Or.inl h2
      | some df =>
        rw [hc] at h2
        dsimp only at h2
        rcases List.mem_append.mp h2 with h3 | h3
        · exact Or.inl h3
        · right
          rcases List.mem_cons.mp h3 with rfl | h4
          · exact hc
          · cases h4
    · exact Or.inr h2

theorem apiFold_hasFile_mono (cfg : FaoCfg) (env : FaoEnv) :
    ∀ (cs : List String) (st : FaoOut) (i : String), hasFile st.files i = true →
      hasFile (cs.foldl (apiCountryStep cfg env) st).files i = true
  | [], _, _, h => h
  | c :: cs, st, i, h => by
    rw [List.foldl_cons]
    apply apiFold_hasFile_mono cfg env cs
    unfold apiCountryStep
    cases (apiCountry cfg env c).1 with
    | none => exact h
    | some df => exact hasFile_setFile_of _ _ _ _ h

theorem apiFold_writes_hasFile (cfg : FaoCfg) (env : FaoEnv) :
    ∀ (cs : List String) (st : FaoOut),
      (∀ x ∈ st.apiWrites, hasFile st.files x.1 = true) →
      ∀ x ∈ (cs.foldl (apiCountryStep cfg env) st).apiWrites,
        hasFile (cs.foldl (apiCountryStep cfg env) st).files x.1 = true
  | [], st, hinv, x, hx => hinv x hx
  | c :: cs, st, hinv, x, hx => by
    rw [List.foldl_cons] at hx ⊢
    apply apiFold_writes_hasFile cfg env cs _ ?_ x hx
    intro y hy
    unfold apiCountryStep at hy ⊢
    cases hc : (apiCountry cfg env c).1 with
    | none =>
      rw [hc] at hy
      exact hinv y hy
    | some df =>
      rw [hc] at hy
      dsimp only at hy ⊢
      rcases List.mem_append.mp hy with h3 | h3
      · exact hasFile_setFile_of _ _ _ _ (hinv y h3)
      · rcases List.mem_cons.mp h3 with rfl | h4
        · exact hasFile_setFile_self _ _ _
        · cases h4

theorem apiFold_files_false (cfg : FaoCfg) (env : FaoEnv) (i : String)
    (hnone : (apiCountry cfg env i).1 = none) :
    ∀ (cs : List String) (st : FaoOut), hasFile st.files i = false →
      hasFile (cs.foldl (apiCountryStep cfg env) st).files i = false
  | [], _, h => h
  | c :: cs, st, h => by
    rw [List.foldl_cons]
    apply apiFold_files_false cfg env i hnone cs
    unfold apiCountryStep
    cases hc : (apiCountry cfg env c).1 with
    | none => exact h
    | some df =>
      dsimp only
      by_cases hci : i = c
      · subst hci
        rw [hnone] at hc
        cases hc
      · rw [hasFile, getFile_setFile_ne _ _ _ _ hci]
        exact h

theorem apiFold_errors_mono (cfg : FaoCfg) (env : FaoEnv) :
    ∀ (cs : List String) (st : FaoOut) (e : FaoErr), e ∈ st.errors →
      e ∈ (cs.foldl (apiCountryStep cfg env) st).errors
  | [], _, _, h => h
  | c :: cs, st, e, h => by
    rw [List.foldl_cons]
    apply apiFold_errors_mono cfg env cs
    unfold apiCountryStep
    cases (apiCountry cfg env c).1 <;> simp [h]

theorem apiFold_errors_mem (cfg : FaoCfg) (env : FaoEnv) :
    ∀ (cs : List String) (st : FaoOut) (i : String), i ∈ cs →
      ∀ e ∈ (apiCountry cfg env i).2, e ∈ (cs.foldl (apiCountryStep cfg env) st).errors
  | c :: cs, st, i, hi, e, he => by
    rw [List.foldl_cons]
    rcases List.mem_cons.mp hi with rfl | h2
    · apply apiFold_errors_mono cfg env cs
      unfold apiCountryStep
      cases (apiCountry cfg env i).1 <;> simp [he]
    · exact apiFold_errors_mem cfg env cs _ i h2 e he

end CaribData

namespace CaribData

theorem selectBulk_spec (env : FaoEnv) :
    ∀ (urls : List String) (url : String) (df : DF) (es : List FaoErr),
      selectBulk env urls = (some (url, df), es) →
      ∃ pre post t, urls = pre ++ url :: post ∧ (∀ u ∈ pre, ¬ mirrorGood env u)
        ∧ env.download url = .table t ∧ t.rows ≠ [] ∧ df = t.stdCols
  | [], url, df, es, h => by cases h
  | u :: rest, url, df, es, h => by
    unfold selectBulk at h
    cases hd : env.download u with
    | unreachable =>
      rw [hd] at h
      obtain ⟨pre, post, t, h1, h2, h3, h4, h5⟩ := selectBulk_spec env rest url df es h
      refine ⟨u :: pre, post, t, by rw [h1]; rfl, ?_, h3, h4, h5⟩
      intro x hx
      rcases List.mem_cons.mp hx with rfl | hx2
      · rintro ⟨t', ht', _⟩
        rw [hd] at ht'
        cases ht'
      · exact h2 x hx2
    | badZip e =>
      rw [hd] at h
      dsimp only at h
      injection h with ha hb
      obtain ⟨pre, post, t, hh1, hh2, hh3, hh4, hh5⟩ :=
        selectBulk_spec env rest url df (selectBulk env rest).2 (by rw [← ha])
      refine ⟨u :: pre, post, t, by rw [hh1]; rfl, ?_, hh3, hh4, hh5⟩
      intro x hx
      rcases List.mem_cons.mp hx with rfl | hx2
      · rintro ⟨t', ht', _⟩
        rw [hd] at ht'
        cases ht'
      · exact hh2 x hx2
    | table t =>
      rw [hd] at h
      dsimp only at h
      by_cases ht : t.rows.isEmpty
      · rw [if_pos ht] at h
        obtain ⟨pre, post, t2, h1, h2, h3, h4, h5⟩ := selectBulk_spec env rest url df es h
        refine ⟨u :: pre, post, t2, by rw [h1]; rfl, ?_, h3, h4, h5⟩
        intro x hx
        rcases List.mem_cons.mp hx with rfl | hx2
        · rintro ⟨t', ht', hne'⟩
          rw [hd] at ht'
          cases ht'
          exact hne' (List.isEmpty_iff.mp ht)
        · exact h2 x hx2
      · rw [if_neg ht] at h
        injection h with ha hb
        injection ha with ha2
        injection ha2 with hu hdf
        subst hu
        exact ⟨[], rest, t, rfl, by simp, hd, fun hh => ht (by rw [hh]; rfl), hdf.symm⟩

end CaribData

namespace CaribData

theorem bulkStep_apiWrites (cfg : FaoCfg) (bulkDf : DF) (st : FaoOut) (iso3 : String) :
    (bulkCountryStep cfg bulkDf st iso3).apiWrites = st.apiWrites := by
  unfold bulkCountryStep
  split <;> rfl

theorem bulkStep_errors (cfg : FaoCfg) (bulkDf : DF) (st : FaoOut) (iso3 : String) :
    (bulkCountryStep cfg bulkDf st iso3).errors = st.errors := by
  unfold bulkCountryStep
  split <;> rfl

theorem bulkFold_apiWrites (cfg : FaoCfg) (bulkDf : DF) :
    ∀ (l : List String) (st : FaoOut),
      (l.foldl (bulkCountryStep cfg bulkDf) st).apiWrites = st.apiWrites
  | [], _ => rfl
  | c :: cs, st => by
    rw [List.foldl_cons, bulkFold_apiWrites cfg bulkDf cs, bulkStep_apiWrites]

theorem bulkFold_errors (cfg : FaoCfg) (bulkDf : DF) :
    ∀ (l : List String) (st : FaoOut),
      (l.foldl (bulkCountryStep cfg bulkDf) st).errors = st.errors
  | [], _ => rfl
  | c :: cs, st => by
    rw [List.foldl_cons, bulkFold_errors cfg bulkDf cs, bulkStep_errors]

theorem bulkFold_writes_mono (cfg : FaoCfg) (bulkDf : DF) :
    ∀ (l : List String) (st : FaoOut) (x : String × DF), x ∈ st.bulkWrites →
      x ∈ (l.foldl (bulkCountryStep cfg bulkDf) st).bulkWrites
  | [], _, _, h => h
  | c :: cs, st, x, h => by
    rw [List.foldl_cons]
    apply bulkFold_writes_mono cfg bulkDf cs
    unfold bulkCountryStep
    split
    · exact h
    · simp [h]

theorem bulkFold_writes_mem (cfg : FaoCfg) (bulkDf : DF) :
    ∀ (l : List String) (st : FaoOut) (iso3 : String), iso3 ∈ l →
      ¬ (filterCountryElements bulkDf iso3 cfg.elements).rows.isEmpty →
      (iso3, bulkOut cfg.elements bulkDf iso3) ∈
        (l.foldl (bulkCountryStep cfg bulkDf) st).bulkWrites
  | c :: cs, st, iso3, hi, hne => by
    rw [List.foldl_cons]
    rcases List.mem_cons.mp hi with rfl | h2
    · apply bulkFold_writes_mono cfg bulkDf cs
      unfold bulkCountryStep
      rw [if_neg hne]
      simp
    · exact bulkFold_writes_mem cfg bulkDf cs _ iso3 h2 hne

theorem bulkFold_writes_inv (cfg : FaoCfg) (bulkDf : DF) :
    ∀ (l : List String) (st : FaoOut) (x : String × DF),
      x ∈ (l.foldl (bulkCountryStep cfg bulkDf) st).bulkWrites →
      x ∈ st.bulkWrites ∨ (x.1 ∈ l ∧ x = (x.1, bulkOut cfg.elements bulkDf x.1))
  | [], st, x, h => Or.inl h
  | c :: cs, st, x, h => by
    rw [List.foldl_cons] at h
    rcases bulkFold_writes_inv cfg bulkDf cs _ x h with h2 | ⟨h2, h3⟩
    · unfold bulkCountryStep at h2
      by_cases hne : (filterCountryElements bulkDf c cfg.elements).rows.isEmpty
      · rw [if_pos hne] at h2
        exact Or.inl h2
      · rw [if_neg hne] at h2
        dsimp only at h2
        rcases List.mem_append.mp h2 with h3 | h3
        · exact Or.inl h3
        · rcases List.mem_cons.mp h3 with rfl | h4
          · exact Or.inr ⟨List.Mem.head _, rfl⟩
          · cases h4
    · exact Or.inr ⟨List.mem_cons_of_mem c h2, h3⟩

theorem bulkFold_getFile_pres (cfg : FaoCfg) (bulkDf : DF) (iso3 : String) :
    ∀ (l : List String) (st : FaoOut),
      getFile st.files iso3 = some (bulkOut cfg.elements bulkDf iso3) →
      getFile (l.foldl (bulkCountryStep cfg bulkDf) st).files iso3
        = some (bulkOut cfg.elements bulkDf iso3)
  | [], _, h => h
  | c :: cs, st, h => by
    rw [List.foldl_cons]
    apply bulkFold_getFile_pres cfg bulkDf iso3 cs
    unfold bulkCountryStep
    split
    · exact h
    · dsimp only
      by_cases hci : iso3 = c
      · subst hci
        exact getFile_setFile_self _ _ _
      · rw [getFile_setFile_ne _ _ _ _ hci]
        exact h

theorem bulkFold_getFile (cfg : FaoCfg) (bulkDf : DF) :
    ∀ (l : List String) (st : FaoOut) (iso3 : String), iso3 ∈ l →
      ¬ (filterCountryElements bulkDf iso3 cfg.elements).rows.isEmpty →
      getFile (l.foldl (bulkCountryStep cfg bulkDf) st).files iso3
        = some (bulkOut cfg.elements bulkDf iso3)
  | c :: cs, st, iso3, hi, hne => by
    rw [List.foldl_cons]
    rcases List.mem_cons.mp hi with rfl | h2
    · apply bulkFold_getFile_pres cfg bulkDf iso3 cs
      unfold bulkCountryStep
      rw [if_neg hne]
      exact getFile_setFile_self _ _ _
    · exact bulkFold_getFile cfg bulkDf cs _ iso3 h2 hne

theorem bulkPhase_apiWrites (cfg : FaoCfg) (env : FaoEnv) (st : FaoOut) :
    (bulkPhase cfg env st).apiWrites = st.apiWrites := by
  unfold bulkPhase
  dsimp only
  split
  · rfl
  · cases hs : selectBulk env cfg.bulkUrls with
    | mk r es =>
      cases r with
      | none => rfl
      | some p =>
        cases p with
        | mk url bulkDf => exact bulkFold_apiWrites cfg bulkDf _ _

theorem bulkPhase_errors_mono (cfg : FaoCfg) (env : FaoEnv) (st : FaoOut) (e : FaoErr)
    (h : e ∈ st.errors) : e ∈ (bulkPhase cfg env st).errors := by
  unfold bulkPhase
  dsimp only
  split
  · exact h
  · cases hs : selectBulk env cfg.bulkUrls with
    | mk r es =>
      cases r with
      | none => simp [h]
      | some p =>
        cases p with
        | mk url bulkDf =>
          rw [bulkFold_errors]
          simp [h]

theorem bulkPhase_bulkWrites_inv (cfg : FaoCfg) (env : FaoEnv) (st : FaoOut)
    (x : String × DF) (hx : x ∈ (bulkPhase cfg env st).bulkWrites) :
    x ∈ st.bulkWrites
    ∨ (x.1 ∈ cfg.countries ∧ hasFile st.files x.1 = false
        ∧ ∃ url bulkDf es, selectBulk env cfg.bulkUrls = (some (url, bulkDf), es)
          ∧ x = (x.1, bulkOut cfg.elements bulkDf x.1)) := by
  unfold bulkPhase at hx
  dsimp only at hx
  split at hx
  · exact Or.inl hx
  · cases hs : selectBulk env cfg.bulkUrls with
    | mk r es =>
      rw [hs] at hx
      cases r with
      | none => exact Or.inl hx
      | some p =>
        cases p with
        | mk url bulkDf =>
          rcases bulkFold_writes_inv cfg bulkDf _ _ x hx with h2 | ⟨h2, h3⟩
          · exact Or.inl h2
          · rw [List.mem_filter] at h2
            refine Or.inr ⟨h2.1, ?_, url, bulkDf, es, rfl, h3⟩
            have := h2.2
            simp only [decide_eq_true_eq, Bool.not_eq_true] at this
            exact this

theorem bulkPhase_writes_fwd (cfg : FaoCfg) (env : FaoEnv) (st : FaoOut) (iso3 : String)
    (url : String) (bulkDf : DF) (es : List FaoErr)
    (hmem : iso3 ∈ cfg.countries) (hnof : hasFile st.files iso3 = false)
    (hsel : selectBulk env cfg.bulkUrls = (some (url, bulkDf), es))
    (hpart : ¬ (filterCountryElements bulkDf iso3 cfg.elements).rows.isEmpty) :
    (iso3, bulkOut cfg.elements bulkDf iso3) ∈ (bulkPhase cfg env st).bulkWrites
    ∧ getFile (bulkPhase cfg env st).files iso3 = some (bulkOut cfg.elements bulkDf iso3) := by
  have hneed : iso3 ∈ cfg.countries.filter (fun i => ¬ hasFile st.files i) := by
    rw [List.mem_filter]
    exact ⟨hmem, by simp [hnof]⟩
  unfold bulkPhase
  dsimp only
  rw [if_neg ?_]
  · rw [hsel]
    exact ⟨bulkFold_writes_mem cfg bulkDf _ _ iso3 hneed hpart,
      bulkFold_getFile cfg bulkDf _ _ iso3 hneed hpart⟩
  · intro hh
    rw [List.isEmpty_iff.mp hh] at hneed
    cases hneed

end CaribData

namespace CaribData

theorem faoEnvEx_wf : ∀ u t, faoEnvEx.download u = .table t → t.WF := by
  intro u t h
  unfold faoEnvEx at h
  dsimp only at h
  by_cases hu : u = "u1"
  · rw [if_pos hu] at h
    injection h with h2
    subst h2
    intro r hr
    simp only [faoTblEx, List.mem_cons, List.not_mem_nil, or_false] at hr
    rcases hr with rfl | rfl | rfl <;> rfl
  · rw [if_neg hu] at h
    cases h

theorem apiDomainFold_dom (env : FaoEnv) (iso3 : String) (el : List String) :
    ∀ (doms : List String) (acc : List DF × List FaoErr),
      (∀ df ∈ acc.1, "_domain" ∈ df.cols) →
      ∀ df ∈ (doms.foldl (apiDomainStep env iso3 el) acc).1, "_domain" ∈ df.cols
  | [], _, hacc => hacc
  | dom :: doms, acc, hacc => by
    rw [List.foldl_cons]
    apply apiDomainFold_dom env iso3 el doms
    unfold apiDomainStep
    cases env.apiFetch iso3 dom with
    | error e => exact hacc
    | ok rows =>
      try (dsimp only)
      by_cases hr : rows.isEmpty
      · rw [if_pos hr]
        exact hacc
      · rw [if_neg hr]
        try (dsimp only)
        by_cases he : (filterCountryElements ((dfOfRecords rows).stdCols) iso3 el).rows.isEmpty
        · rw [if_pos he]
          exact hacc
        · rw [if_neg he]
          intro df hdf
          rcases List.mem_append.mp hdf with h2 | h2
          · exact hacc df h2
          · rcases List.mem_cons.mp h2 with rfl | h3
            · exact setCol_mem_self _ _ _
            · cases h3

theorem apiCountry_some_sorted (cfg : FaoCfg) (env : FaoEnv) (iso3 : String) (out : DF)
    (h : (apiCountry cfg env iso3).1 = some out) : out.sortedByKey := by
  unfold apiCountry at h
  dsimp only at h
  split at h
  · cases h
  · next hne =>
    injection h with h2
    rw [← h2]
    apply apiOut_sorted
    · intro hh
      rw [hh] at hne
      exact hne rfl
    · exact apiDomainFold_dom env iso3 cfg.elements cfg.domains ([], [])
        (by intro df hdf; cases hdf)

/-- C4: every FAOSTAT country file produced by `build_faostat_fbs` — by
the API path or the bulk fallback — has rows non-decreasing in the
lexicographic order on (domain, item, element, year) restricted to the
columns present in the file. -/
theorem faostat_sort_invariant (cfg : FaoCfg) (env : FaoEnv) (init : Files)
    (hwf : ∀ u t, env.download u = .table t → t.WF) (iso3 : String) (out : DF)
    (h : (iso3, out) ∈ (build_faostat_fbs cfg env init).apiWrites
       ∨ (iso3, out) ∈ (build_faostat_fbs cfg env init).bulkWrites) :
    out.sortedByKey := by
  rcases h with h | h
  · have h2 : (iso3, out) ∈ (apiPhase cfg env init).apiWrites := by
      rw [← bulkPhase_apiWrites cfg env (apiPhase cfg env init)]
      exact h
    unfold apiPhase at h2
    rcases apiFold_apiWrites_inv cfg env cfg.countries _ (iso3, out) h2 with h3 | h3
    · cases h3
    · exact apiCountry_some_sorted cfg env iso3 out h3
  · rcases bulkPhase_bulkWrites_inv cfg env _ (iso3, out) h with h2 | h2
    · have hempty : (apiPhase cfg env init).bulkWrites = [] := by
        unfold apiPhase
        rw [apiFold_bulkWrites]
      rw [hempty] at h2
      cases h2
    · obtain ⟨_, _, url, bulkDf, es, hsel, hx⟩ := h2
      obtain ⟨pre, post, t, _, _, h3, _, h5⟩ :=
        selectBulk_spec env cfg.bulkUrls url bulkDf es hsel
      have hwfb : bulkDf.WF := by
        rw [h5]
        exact stdCols_WF (hwf url t h3)
      have hx2 : out = bulkOut cfg.elements bulkDf iso3 := by
        injection hx with _ hx2
      rw [hx2]
      exact (bulkOut_facts cfg.elements bulkDf iso3 hwfb).2

/-- C2: the bulk fallback runs exactly for countries with no output file
after the API step; the mirror that supplies the table is the first
reachable one with a non-empty table; a country whose primary fetches
failed but whose bulk extract is non-empty gets its file written by the
bulk path with `_source = "bulk"` in every row, and the failed primary
attempt left an error record. -/
theorem faostat_bulk_fallback (cfg : FaoCfg) (env : FaoEnv) (init : Files) (iso3 : String)
    (url dom emsg : String) (bulkDf : DF) (es : List FaoErr)
    (hwf : ∀ u t, env.download u = .table t → t.WF)
    (hmem : iso3 ∈ cfg.countries)
    (hdom : dom ∈ cfg.domains)
    (hfail : env.apiFetch iso3 dom = .error emsg)
    (hnof : hasFile (apiPhase cfg env init).files iso3 = false)
    (hsel : selectBulk env cfg.bulkUrls = (some (url, bulkDf), es))
    (hpart : ¬ (filterCountryElements bulkDf iso3 cfg.elements).rows.isEmpty) :
    (∃ pre post t, cfg.bulkUrls = pre ++ url :: post ∧ (∀ u ∈ pre, ¬ mirrorGood env u)
        ∧ env.download url = .table t ∧ t.rows ≠ [] ∧ bulkDf = t.stdCols)
    ∧ (iso3, bulkOut cfg.elements bulkDf iso3) ∈ (build_faostat_fbs cfg env init).bulkWrites
    ∧ getFile (build_faostat_fbs cfg env init).files iso3
        = some (bulkOut cfg.elements bulkDf iso3)
    ∧ (∀ r ∈ (bulkOut cfg.elements bulkDf iso3).rows, getCell r "_source" = .str "bulk")
    ∧ FaoErr.apiFetch iso3 dom emsg ∈ (build_faostat_fbs cfg env init).errors
    ∧ (∀ i d, (i, d) ∈ (build_faostat_fbs cfg env init).bulkWrites →
        i ∈ cfg.countries ∧ hasFile (apiPhase cfg env init).files i = false) := by
  have hwfb : bulkDf.WF := by
    obtain ⟨pre, post, t, _, _, h3, _, h5⟩ :=
      selectBulk_spec env cfg.bulkUrls url bulkDf es hsel
    rw [h5]
    exact stdCols_WF (hwf url t h3)
  have hfwd := bulkPhase_writes_fwd cfg env (apiPhase cfg env init) iso3 url bulkDf es
    hmem hnof hsel hpart
  have hempty : (apiPhase cfg env init).bulkWrites = [] := by
    unfold apiPhase
    rw [apiFold_bulkWrites]
  refine ⟨selectBulk_spec env cfg.bulkUrls url bulkDf es hsel, hfwd.1, hfwd.2,
    (bulkOut_facts cfg.elements bulkDf iso3 hwfb).1, ?_, ?_⟩
  · apply bulkPhase_errors_mono
    show FaoErr.apiFetch iso3 dom emsg ∈ (apiPhase cfg env init).errors
    unfold apiPhase
    apply apiFold_errors_mem cfg env cfg.countries _ iso3 hmem
    rw [apiCountry_errs]
    rw [apiErrsFor, List.mem_filterMap]
    exact ⟨dom, hdom, by rw [hfail]⟩
  · intro i d hid
    rcases bulkPhase_bulkWrites_inv cfg env _ (i, d) hid with h2 | ⟨h2, h3, _⟩
    · rw [hempty] at h2
      cases h2
    · exact ⟨h2, h3⟩

/-- C10: within one run, a country written by the bulk fallback had no
output file when the fallback started — neither a leftover from `init`
nor one the API path wrote — so the two paths never both write
`{iso3}_fbs.csv`. -/
theorem faostat_single_writer (cfg : FaoCfg) (env : FaoEnv) (init : Files) (iso3 : String)
    (df : DF) (h : (iso3, df) ∈ (build_faostat_fbs cfg env init).bulkWrites) :
    hasFile (apiPhase cfg env init).files iso3 = false
    ∧ getFile init iso3 = none
    ∧ ∀ df', (iso3, df') ∉ (build_faostat_fbs cfg env init).apiWrites := by
  have hempty : (apiPhase cfg env init).bulkWrites = [] := by
    unfold apiPhase
    rw [apiFold_bulkWrites]
  rcases bulkPhase_bulkWrites_inv cfg env (apiPhase cfg env init) (iso3, df) h with h2 | h2
  · rw [hempty] at h2
    cases h2
  · obtain ⟨_, h3, _⟩ := h2
    refine ⟨h3, ?_, ?_⟩
    · cases hgf : getFile init iso3 with
      | none => rfl
      | some d =>
        have hh : hasFile init iso3 = true := by rw [hasFile, hgf]; rfl
        have := apiFold_hasFile_mono cfg env cfg.countries ⟨init, [], [], []⟩ iso3 hh
        unfold apiPhase at h3
        rw [this] at h3
        cases h3
    · intro df' hdf'
      have hw : (iso3, df') ∈ (apiPhase cfg env init).apiWrites := by
        rw [← bulkPhase_apiWrites cfg env (apiPhase cfg env init)]
        exact hdf'
      have hhf : hasFile (apiPhase cfg env init).files iso3 = true := by
        unfold apiPhase at hw ⊢
        exact apiFold_writes_hasFile cfg env cfg.countries ⟨init, [], [], []⟩
          (by intro x hx; cases hx) (iso3, df') hw
      rw [hhf] at h3
      cases h3

end CaribData

namespace CaribData

theorem faostat_bulk_fallback_witness :
    ("BLZ", bulkOut [] (DF.stdCols faoTblEx) "BLZ")
      ∈ (build_faostat_fbs faoCfgEx faoEnvEx []).bulkWrites :=
  (faostat_bulk_fallback faoCfgEx faoEnvEx [] "BLZ" "u1" "FBS/FBS" "down"
    (DF.stdCols faoTblEx) [] faoEnvEx_wf (List.Mem.head _) (List.Mem.head _) rfl rfl rfl
    (by decide)).2.1

theorem faostat_sort_invariant_witness :
    (bulkOut [] (DF.stdCols faoTblEx) "BLZ").sortedByKey :=
  faostat_sort_invariant faoCfgEx faoEnvEx [] faoEnvEx_wf "BLZ"
    (bulkOut [] (DF.stdCols faoTblEx) "BLZ")
    (Or.inr (by
      rw [show (build_faostat_fbs faoCfgEx faoEnvEx []).bulkWrites
          = [("BLZ", bulkOut [] (DF.stdCols faoTblEx) "BLZ")] from rfl]
      exact List.Mem.head _))

theorem faostat_single_writer_witness :
    hasFile (apiPhase faoCfgEx faoEnvEx []).files "BLZ" = false :=
  (faostat_single_writer faoCfgEx faoEnvEx [] "BLZ" (bulkOut [] (DF.stdCols faoTblEx) "BLZ")
    (by
      rw [show (build_faostat_fbs faoCfgEx faoEnvEx []).bulkWrites
          = [("BLZ", bulkOut [] (DF.stdCols faoTblEx) "BLZ")] from rfl]
      exact List.Mem.head _)).1

end CaribData
